import Mathlib

/-!
# Line sorter: `tester.cpp`, `MainTestFinal.cpp`, `MainTestBest.cpp`

A shallow embedding of the three revisions of the line-sorting program and
theorems about their comparers, their sorting routines and their drivers.

Conventions of the embedding.

* A `char` is one byte (`Fin 256`); a `std::string` is the list of its bytes and
  a `vector<string>` is a list of strings.
* The built-in comparison of two `char`s compares their values as plain `char`,
  which is a signed type on the targets named in the source notes
  (`charValue`); `std::string`'s own comparison compares bytes as
  `unsigned char` (`stringCompare`).
* A routine returns `none` when it has no defined result: it reads or writes a
  vector element that does not exist, asks for a vector of negative size, or
  lets two threads append to one vector without ordering them.
  `some r` means that it returns `r`.
* Threads and futures that work on separate data (the halves of `mergeSort`, the
  ranges of the sorting threads, the file readers that return their own list)
  are run one after the other, in the order of their creation.
* A comparer answers `none` where the source yields no defined Boolean (the last
  character of an empty string, or the end of a function reached without a
  `return`).  A sort that asks such a question goes on with whatever Boolean
  comes back; that Boolean is the parameter `unspecified`, and every theorem
  holds for each choice of it.
* Loop counters and `int` indices are natural numbers and integers; the unsigned
  subtraction `size() - 1` and its conversion to `int` are written out with their
  wrap-around (`sizeMinusOne`, `intOfSize`).
* A file is the list of its bytes, `none` when it cannot be opened; an `ifstream` is
  the record `IfStream` of content, read position and state bits.
* The order `<`, `≤` on strings is the lexicographic order of byte lists, bytes
  compared as unsigned values; a proper prefix is less than each of its
  extensions.
-/

/-- A C++ `char`: one byte. -/
abbrev CppChar := Fin 256

/-- A C++ `std::string`: the sequence of its bytes. -/
abbrev CppString := List CppChar

/-- Value of a `char` in a built-in comparison such as `_first[i] < _second[i]`:
the byte read as a signed 8-bit integer. -/
def charValue (c : CppChar) : Int :=
  if c.val < 128 then (c.val : Int) else (c.val : Int) - 256

/-- Result sign of `std::string::compare`: the first position where the two
strings differ decides, bytes compared as `unsigned char`; when one string is a
prefix of the other the shorter one is the smaller. -/
def stringCompare : CppString → CppString → Int
  | [], [] => 0
  | [], _ :: _ => -1
  | _ :: _, [] => 1
  | a :: as, b :: bs =>
    if a.val < b.val then -1
    else if b.val < a.val then 1
    else stringCompare as bs

/-- Value of `size() - 1` computed in the unsigned 64-bit type `size_t`, for the
size `n` of a vector (below `2 ^ 64`): the subtraction wraps around at size
zero, so that the value is `(n + 2 ^ 64 - 1) % 2 ^ 64`. -/
def sizeMinusOne (n : Nat) : Nat := if n = 0 then 2 ^ 64 - 1 else n - 1

/-- Conversion of a `size_t` value to the 32-bit `int` parameter that receives it. -/
def intOfSize (n : Nat) : Int :=
  if n % 2 ^ 32 < 2 ^ 31 then ((n % 2 ^ 32 : Nat) : Int) else ((n % 2 ^ 32 : Nat) : Int) - 2 ^ 32

/-- The selector `enum class ESortType`. -/
inductive ESortType where
  | AlphabeticalAscending
  | AlphabeticalDescending
  | LastLetterAscending
  deriving DecidableEq, Repr

/-- The interface `IStringComparer`: one virtual method. -/
structure IStringComparer where
  /-- The answer of the method, `none` where the source defines none. -/
  IsFirstAboveSecond : CppString → CppString → Option Bool

/-- What a caller of `IsFirstAboveSecond` goes on with: the answer of the
comparer, or the Boolean `unspecified _first _second` where there is no defined answer. -/
def IStringComparer.answer (unspecified : CppString → CppString → Bool)
    (comparer : IStringComparer) (first second : CppString) : Bool :=
  (comparer.IsFirstAboveSecond first second).getD (unspecified first second)

/-- The method `AlphabeticalAscendingStringComparer::IsFirstAboveSecond` (the same text in
the three files).  The source walks both strings with one index `i`; here the
two lists are walked in lockstep, so that the heads are `_first[i]` and
`_second[i]`.  When one string is exhausted the loop ends and the result is
`i == _second.length()`: true exactly when `_second` has no character left. -/
def AlphabeticalAscendingStringComparer.IsFirstAboveSecond : CppString → CppString → Bool
  | a :: first, b :: second =>
    if charValue a < charValue b then true
    else if charValue a > charValue b then false
    else AlphabeticalAscendingStringComparer.IsFirstAboveSecond first second
  | _, [] => true
  | [], _ :: _ => false

/-- The method `AlphabeticalDescendingStringComparer::IsFirstAboveSecond` (the same in the
three files): `_first > _second` on `std::string`. -/
def AlphabeticalDescendingStringComparer.IsFirstAboveSecond (first second : CppString) : Bool :=
  decide (stringCompare first second > 0)

namespace Tester

/-- The method `LastLetterAscendingStringComparer::IsFirstAboveSecond` of `tester.cpp`:
`_first.back() < _second.back()`.  An empty string has no last character. -/
def LastLetterAscendingStringComparer.IsFirstAboveSecond (first second : CppString) :
    Option Bool :=
  match first.getLast?, second.getLast? with
  | some a, some b => some (decide (charValue a < charValue b))
  | _, _ => none

/-- The factory `CreateComparer` of `tester.cpp`; the `switch` covers the three enumerators. -/
def CreateComparer : ESortType → IStringComparer
  | .AlphabeticalAscending =>
    ⟨fun a b => some (AlphabeticalAscendingStringComparer.IsFirstAboveSecond a b)⟩
  | .AlphabeticalDescending =>
    ⟨fun a b => some (AlphabeticalDescendingStringComparer.IsFirstAboveSecond a b)⟩
  | .LastLetterAscending => ⟨LastLetterAscendingStringComparer.IsFirstAboveSecond⟩

/-- Body of the inner loop of `BubbleSort` at counter `j`: read `sortedList[j]`
and `sortedList[j+1]` and exchange them when the comparer does not put the
first above the second. -/
def swapIfNotAbove (unspecified : CppString → CppString → Bool) (comparer : IStringComparer)
    (sortedList : List CppString) (j : Nat) : Option (List CppString) :=
  match sortedList[j]?, sortedList[j + 1]? with
  | some a, some b =>
    if !comparer.answer unspecified a b then some ((sortedList.set j b).set (j + 1) a)
    else some sortedList
  | _, _ => none

/-- The inner loop `for (unsigned int j = 0; j < sortedList.size() - 1; ++j)` of
`BubbleSort`, entered with the counter at `j`.  The body only exchanges
elements, so `sortedList.size() - 1` has the same value at every test of the
loop; that value is `bound`. -/
def innerLoop (unspecified : CppString → CppString → Bool) (comparer : IStringComparer)
    (bound j : Nat) (sortedList : List CppString) : Option (List CppString) :=
  if j < bound then
    match swapIfNotAbove unspecified comparer sortedList j with
    | some r => innerLoop unspecified comparer bound (j + 1) r
    | none => none
  else some sortedList
termination_by bound - j

/-- The outer loop `for (unsigned int i = 0; i < sortedList.size() - 1; ++i)` of
`BubbleSort`, entered with the counter at `i` (`bound` as in `innerLoop`): each
round runs the inner loop from `j = 0`. -/
def outerLoop (unspecified : CppString → CppString → Bool) (comparer : IStringComparer)
    (bound i : Nat) (sortedList : List CppString) : Option (List CppString) :=
  if i < bound then
    match innerLoop unspecified comparer (sizeMinusOne sortedList.length) 0 sortedList with
    | some r => outerLoop unspecified comparer bound (i + 1) r
    | none => none
  else some sortedList
termination_by bound - i

/-- The function `BubbleSort` of `tester.cpp`: the list is copied, the double loop runs
on the copy and the copy is returned. -/
def BubbleSort (unspecified : CppString → CppString → Bool) (_listToSort : List CppString)
    (_comparer : IStringComparer) : Option (List CppString) :=
  let sortedList := _listToSort
  outerLoop unspecified _comparer (sizeMinusOne sortedList.length) 0 sortedList

end Tester

namespace MainTestBest

/-- The method `LastLetterAscendingStringComparer::IsFirstAboveSecond` of
`MainTestBest.cpp`.  The block of the `if` returns `false` when one of the
strings is empty; the statements that read the two last characters stand in
that block behind the `return` and are never run.  For two non-empty strings
the end of the function is reached without a `return`. -/
def LastLetterAscendingStringComparer.IsFirstAboveSecond (first second : CppString) :
    Option Bool :=
  if first.isEmpty || second.isEmpty then some false else none

/-- The factory `CreateComparer` of `MainTestBest.cpp`; the `switch` covers the three
enumerators. -/
def CreateComparer : ESortType → IStringComparer
  | .AlphabeticalAscending =>
    ⟨fun a b => some (AlphabeticalAscendingStringComparer.IsFirstAboveSecond a b)⟩
  | .AlphabeticalDescending =>
    ⟨fun a b => some (AlphabeticalDescendingStringComparer.IsFirstAboveSecond a b)⟩
  | .LastLetterAscending => ⟨LastLetterAscendingStringComparer.IsFirstAboveSecond⟩

/-- The constant `THREAD_THRESHOLD`. -/
def THREAD_THRESHOLD : Int := 1000

/-- The constant `MAX_THREAD_DEPTH`. -/
def MAX_THREAD_DEPTH : Int := 3

/-- Read of `v[i]` with an `int` index: defined when the element exists. -/
def elementAt (v : List CppString) (i : Int) : Option CppString :=
  if 0 ≤ i then v[i.toNat]? else none

/-- Assignment `v[i] = x` with an `int` index: defined when the element exists. -/
def assignAt (v : List CppString) (i : Int) (x : CppString) : Option (List CppString) :=
  if 0 ≤ i ∧ i.toNat < v.length then some (v.set i.toNat x) else none

/-- The local variables of `merge` that its loops change. -/
structure MergeState where
  /-- Index into the left run. -/
  i : Int
  /-- Index into the right run. -/
  j : Int
  /-- Index into `temp`. -/
  k : Int
  /-- The buffer `temp`. -/
  temp : List CppString

/-- First loop of `merge`: `while (i <= mid && j <= high)`.  The left element is
emitted when the comparer does NOT put it above the right one, otherwise
the right element is emitted. -/
def mergeWhileBoth (unspecified : CppString → CppString → Bool) (_sortType : ESortType)
    (arr : List CppString) (mid high : Int) (s : MergeState) : Option MergeState :=
  if s.i ≤ mid ∧ s.j ≤ high then
    match elementAt arr s.i, elementAt arr s.j with
    | some a, some b =>
      if !(CreateComparer _sortType).answer unspecified a b then
        match assignAt s.temp s.k a with
        | some t => mergeWhileBoth unspecified _sortType arr mid high ⟨s.i + 1, s.j, s.k + 1, t⟩
        | none => none
      else
        match assignAt s.temp s.k b with
        | some t => mergeWhileBoth unspecified _sortType arr mid high ⟨s.i, s.j + 1, s.k + 1, t⟩
        | none => none
    | _, _ => none
  else some s
termination_by (mid + 1 - s.i).toNat + (high + 1 - s.j).toNat
decreasing_by
  all_goals simp_wf
  all_goals omega

/-- Second loop of `merge`: `while (i <= mid) temp[k++] = arr[i++];`. -/
def mergeWhileLeft (arr : List CppString) (mid : Int) (s : MergeState) : Option MergeState :=
  if s.i ≤ mid then
    match elementAt arr s.i with
    | some a =>
      match assignAt s.temp s.k a with
      | some t => mergeWhileLeft arr mid ⟨s.i + 1, s.j, s.k + 1, t⟩
      | none => none
    | none => none
  else some s
termination_by (mid + 1 - s.i).toNat
decreasing_by
  all_goals simp_wf
  all_goals omega

/-- Third loop of `merge`: `while (j <= high) temp[k++] = arr[j++];`. -/
def mergeWhileRight (arr : List CppString) (high : Int) (s : MergeState) : Option MergeState :=
  if s.j ≤ high then
    match elementAt arr s.j with
    | some b =>
      match assignAt s.temp s.k b with
      | some t => mergeWhileRight arr high ⟨s.i, s.j + 1, s.k + 1, t⟩
      | none => none
    | none => none
  else some s
termination_by (high + 1 - s.j).toNat
decreasing_by
  all_goals simp_wf
  all_goals omega

/-- Last loop of `merge`: `for (k = 0, i = low; i <= high; ++i, ++k) arr[i] = temp[k];`,
entered with the counters at `k` and `i`. -/
def mergeCopyBack (temp : List CppString) (high : Int) (k i : Int) (arr : List CppString) :
    Option (List CppString) :=
  if i ≤ high then
    match elementAt temp k with
    | some x =>
      match assignAt arr i x with
      | some arr1 => mergeCopyBack temp high (k + 1) (i + 1) arr1
      | none => none
    | none => none
  else some arr
termination_by (high + 1 - i).toNat
decreasing_by
  all_goals simp_wf
  all_goals omega

/-- The function `merge` of `MainTestBest.cpp`.  The buffer `temp` is created with
`high - low + 1` empty strings (no vector has a negative size), filled by the
three `while` loops and copied back over `arr[low..high]`. -/
def merge (unspecified : CppString → CppString → Bool) (arr : List CppString)
    (low mid high : Int) (_sortType : ESortType) : Option (List CppString) :=
  if high - low + 1 < 0 then none
  else
    let temp : List CppString := List.replicate (high - low + 1).toNat []
    match mergeWhileBoth unspecified _sortType arr mid high ⟨low, mid + 1, 0, temp⟩ with
    | none => none
    | some s1 =>
      match mergeWhileLeft arr mid s1 with
      | none => none
      | some s2 =>
        match mergeWhileRight arr high s2 with
        | none => none
        | some s3 => mergeCopyBack s3.temp high 0 low arr

/-- The function `mergeSort` of `MainTestBest.cpp`.  In the first branch the two halves
are sorted by two threads that are joined before the merge; the threads work on
the disjoint index ranges `[low, mid]` and `[mid + 1, high]` of the same vector,
so their joint effect is that of the two calls one after the other.  `int`
division truncates (`Int.tdiv`). -/
def mergeSort (unspecified : CppString → CppString → Bool) (arr : List CppString)
    (low high : Int) (_sortType : ESortType) (depth : Int) : Option (List CppString) :=
  if low < high then
    let mid := low + Int.tdiv (high - low) 2
    let halves : Option (List CppString) :=
      if depth < MAX_THREAD_DEPTH ∧ high - low > THREAD_THRESHOLD then
        match mergeSort unspecified arr low mid _sortType (depth + 1) with
        | some arr1 => mergeSort unspecified arr1 (mid + 1) high _sortType (depth + 1)
        | none => none
      else
        match mergeSort unspecified arr low mid _sortType (depth + 1) with
        | some arr1 => mergeSort unspecified arr1 (mid + 1) high _sortType (depth + 1)
        | none => none
    match halves with
    | some arr2 => merge unspecified arr2 low mid high _sortType
    | none => none
  else some arr
termination_by (high - low).toNat
decreasing_by
  all_goals simp_wf
  all_goals (rw [Int.tdiv_eq_ediv (by omega) (by decide)]; omega)

/-- The call `mergeSort(masterStringList, 0, masterStringList.size() - 1, _sortType)` of
the two drivers: the unsigned value `size() - 1` is converted to the `int`
parameter `high`, and `depth` takes its default `0`. -/
def sortMaster (unspecified : CppString → CppString → Bool) (masterStringList : List CppString)
    (_sortType : ESortType) : Option (List CppString) :=
  mergeSort unspecified masterStringList 0 (intOfSize (sizeMinusOne masterStringList.length))
    _sortType 0

/-- The loop of `DoSingleThreaded` in `MainTestBest.cpp`, entered with the counter at `i`:
the lines of `_fileList[i]` are appended to the master list, the master list is
sorted, the entry `i` is erased from `_fileList`, and the counter is incremented. -/
def DoSingleThreaded.loop (unspecified : CppString → CppString → Bool)
    (ReadFile : CppString → List CppString) (_sortType : ESortType) (i : Nat)
    (_fileList : List CppString) (masterStringList : List CppString) :
    Option (List CppString) :=
  if h : i < _fileList.length then
    let fileStringList := ReadFile _fileList[i]
    match sortMaster unspecified (masterStringList ++ fileStringList) _sortType with
    | some sorted =>
      DoSingleThreaded.loop unspecified ReadFile _sortType (i + 1) (_fileList.eraseIdx i) sorted
    | none => none
  else some masterStringList
termination_by _fileList.length - i
decreasing_by
  simp_wf
  rw [List.length_eraseIdx]
  simp [h]
  omega

/-- The function `DoSingleThreaded` of `MainTestBest.cpp`: the master list that it hands
to `WriteAndPrintResults`.  Reading a file is the function `ReadFile` from file
names to line lists. -/
def DoSingleThreaded (unspecified : CppString → CppString → Bool)
    (ReadFile : CppString → List CppString) (_fileList : List CppString)
    (_sortType : ESortType) : Option (List CppString) :=
  DoSingleThreaded.loop unspecified ReadFile _sortType 0 _fileList []

/-- The function `DoMultiThreaded` of `MainTestBest.cpp`: the master list that it hands to
`WriteAndPrintResults`.  One future per file reads that file; the results are
taken in the order of `_fileList` and appended to the master list, which is
sorted once. -/
def DoMultiThreaded (unspecified : CppString → CppString → Bool)
    (ReadFile : CppString → List CppString) (_fileList : List CppString)
    (_sortType : ESortType) : Option (List CppString) :=
  let workerFutures := _fileList.map ReadFile
  let masterStringList := workerFutures.foldl (fun master fileStrings => master ++ fileStrings) []
  sortMaster unspecified masterStringList _sortType

end MainTestBest

/-- Value of an enumerator of `ESortType` in the underlying type `int`.  An object
of the type `ESortType` holds an `int`; the values `0`, `1`, `2` are the three
enumerators and every other value is a selector that the program does not
recognise. -/
def ESortType.toInt : ESortType → Int
  | .AlphabeticalAscending => 0
  | .AlphabeticalDescending => 1
  | .LastLetterAscending => 2

namespace MainTestFinal

/-- The method `LastLetterAscendingStringComparer::IsFirstAboveSecond` of
`MainTestFinal.cpp`.  The brace that opens the block of the `if` is closed only by
the brace printed at the indentation of the function, so the block holds
`return false;` and, behind it, the statements that read the two last
characters, as in `MainTestBest.cpp`: they are never run, and for two non-empty
strings the end of the function is reached without a `return`. -/
def LastLetterAscendingStringComparer.IsFirstAboveSecond (first second : CppString) :
    Option Bool :=
  if first.isEmpty || second.isEmpty then some false else none

/-- The factory `CreateComparer` of `MainTestFinal.cpp` on the value held by `_sortType`:
the `switch` has one `case` per enumerator, and behind the `switch` the function
returns `nullptr` (`none`). -/
def CreateComparer (_sortType : Int) : Option IStringComparer :=
  if _sortType = ESortType.AlphabeticalAscending.toInt then
    some ⟨fun a b => some (AlphabeticalAscendingStringComparer.IsFirstAboveSecond a b)⟩
  else if _sortType = ESortType.AlphabeticalDescending.toInt then
    some ⟨fun a b => some (AlphabeticalDescendingStringComparer.IsFirstAboveSecond a b)⟩
  else if _sortType = ESortType.LastLetterAscending.toInt then
    some ⟨LastLetterAscendingStringComparer.IsFirstAboveSecond⟩
  else none

/-- Body of the innermost loop of a thread of `BubbleSort` at the `int` counter `k`:
`_listToSort[k]` and `_listToSort[k + 1]` are exchanged when the comparer does not
put the first above the second. -/
def swapAt (unspecified : CppString → CppString → Bool) (comparer : IStringComparer)
    (_listToSort : List CppString) (k : Int) : Option (List CppString) :=
  if 0 ≤ k then Tester.swapIfNotAbove unspecified comparer _listToSort k.toNat else none

/-- The loop `for (int k = start; k < end - j - 1; k++)` of a thread of `BubbleSort`,
entered with the counter at `k`. -/
def threadInner (unspecified : CppString → CppString → Bool) (comparer : IStringComparer)
    (end_ j k : Int) (_listToSort : List CppString) : Option (List CppString) :=
  if k < end_ - j - 1 then
    match swapAt unspecified comparer _listToSort k with
    | some r => threadInner unspecified comparer end_ j (k + 1) r
    | none => none
  else some _listToSort
termination_by (end_ - j - 1 - k).toNat
decreasing_by
  all_goals simp_wf
  all_goals omega

/-- The loop `for (int j = start; j < end - 1; j++)` of a thread of `BubbleSort`, entered
with the counter at `j`. -/
def threadOuter (unspecified : CppString → CppString → Bool) (comparer : IStringComparer)
    (start end_ j : Int) (_listToSort : List CppString) : Option (List CppString) :=
  if j < end_ - 1 then
    match threadInner unspecified comparer end_ j start _listToSort with
    | some r => threadOuter unspecified comparer start end_ (j + 1) r
    | none => none
  else some _listToSort
termination_by (end_ - 1 - j).toNat
decreasing_by
  all_goals simp_wf
  all_goals omega

/-- The loop `for (int i = 0; i < numThreads; i++)` of `BubbleSort`, entered with the
counter at `i`, together with the joins: thread `i` works on the index range
`[start, end)` of the parameter `_listToSort`; the ranges of different threads
are disjoint, so the joint effect of the threads is that of their bodies run one
after the other.  `size` is `_listToSort.size()`. -/
def threadsLoop (unspecified : CppString → CppString → Bool) (comparer : IStringComparer)
    (numThreads sublistSize size i : Int) (_listToSort : List CppString) :
    Option (List CppString) :=
  if i < numThreads then
    let start := i * sublistSize
    let end_ := if i = numThreads - 1 then size else (i + 1) * sublistSize
    match threadOuter unspecified comparer start end_ start _listToSort with
    | some r => threadsLoop unspecified comparer numThreads sublistSize size (i + 1) r
    | none => none
  else some _listToSort
termination_by (numThreads - i).toNat
decreasing_by
  all_goals simp_wf
  all_goals omega

/-- The function `BubbleSort` of `MainTestFinal.cpp`.  `numThreads` is the value that
`std::thread::hardware_concurrency()` returns.  A null comparer raises
`runtime_error("Invalid sort type")` (`Except.error`).  Otherwise the double loop
of `tester.cpp` runs on the copy `sortedList`; then the threads run their passes on
the parameter `_listToSort` (a division by `numThreads = 0` has no defined
result); and `sortedList` is returned. -/
def BubbleSort (unspecified : CppString → CppString → Bool) (numThreads : Nat)
    (_listToSort : List CppString) (_sortType : Int) :
    Except String (Option (List CppString)) :=
  match CreateComparer _sortType with
  | none => .error "Invalid sort type"
  | some stringSorter =>
    .ok (
      match Tester.outerLoop unspecified stringSorter (sizeMinusOne _listToSort.length) 0
          _listToSort with
      | none => none
      | some sortedList =>
        if numThreads = 0 then none
        else
          match threadsLoop unspecified stringSorter numThreads
              ((_listToSort.length / numThreads : Nat) : Int) (_listToSort.length : Int) 0
              _listToSort with
          | none => none
          | some _ => some sortedList)

end MainTestFinal

namespace MainTestBest

/-- Number of `std::thread` objects that a call `mergeSort(arr, low, high, _sortType, depth)`
creates, itself and in the calls below it: the recursion of `mergeSort`, with two
threads counted where the first branch is taken. -/
def threadsCreated (low high depth : Int) : Nat :=
  if low < high then
    if depth < MAX_THREAD_DEPTH ∧ high - low > THREAD_THRESHOLD then
      2 + threadsCreated low (low + Int.tdiv (high - low) 2) (depth + 1) +
        threadsCreated (low + Int.tdiv (high - low) 2 + 1) high (depth + 1)
    else
      threadsCreated low (low + Int.tdiv (high - low) 2) (depth + 1) +
        threadsCreated (low + Int.tdiv (high - low) 2 + 1) high (depth + 1)
  else 0
termination_by (high - low).toNat
decreasing_by
  all_goals simp_wf
  all_goals (rw [Int.tdiv_eq_ediv (by omega) (by decide)]; omega)

end MainTestBest

/-! ## Files: streams, `ReadFile`, `WriteAndPrintResults`, and `DoMultiThreaded` of `tester.cpp` -/

/-- The bytes of a string literal of the source, for literals of ASCII characters. -/
def cpp (s : String) : CppString := s.toList.map (fun c => Fin.ofNat c.toNat)

/-- The newline character, which ends a line. -/
def newline : CppChar := 10

/-- An input file stream `ifstream`: the bytes of the file it was opened on (none
when the file could not be opened), the read position, and the state bits
`eofbit` and `failbit`. -/
structure IfStream where
  /-- Bytes of the file. -/
  content : List CppChar
  /-- Read position. -/
  pos : Nat
  /-- The state bit `eofbit`. -/
  eofbit : Bool
  /-- The state bit `failbit`. -/
  failbit : Bool

/-- Construction `ifstream fileIn(_fileName, ifstream::in)`: `file` is the content of the
named file, `none` when it cannot be opened; then `failbit` is set. -/
def IfStream.open (file : Option (List CppChar)) : IfStream :=
  match file with
  | some bytes => ⟨bytes, 0, false, false⟩
  | none => ⟨[], 0, false, true⟩

/-- The call `seekg(p, ios::beg)`: clears `eofbit` and, unless the stream has failed, sets
the read position. -/
def IfStream.seekg (s : IfStream) (p : Nat) : IfStream :=
  if s.failbit then { s with eofbit := false } else { s with pos := p, eofbit := false }

/-- The call `getline(s, str)`.  On a stream that is not good it sets `failbit` and
leaves `str` as it is.  Otherwise it takes the characters up to the next
newline, which it consumes and does not store; when the file ends first, it sets
`eofbit`, and also `failbit` if it took no character at all. -/
def IfStream.getline (s : IfStream) (str : CppString) : IfStream × CppString :=
  if s.eofbit || s.failbit then ({ s with failbit := true }, str)
  else
    let rest := s.content.drop s.pos
    let line := rest.takeWhile (fun c => c ≠ newline)
    if line.length < rest.length then ({ s with pos := s.pos + line.length + 1 }, line)
    else ({ s with pos := s.pos + line.length, eofbit := true, failbit := line.isEmpty }, line)

/-- The call `peek()`: `none` is `EOF`.  On a stream that is not good it sets `failbit` and
returns `EOF`; at the end of the file it sets `eofbit` and returns `EOF`;
otherwise it returns the next character and leaves it in the stream. -/
def IfStream.peek (s : IfStream) : IfStream × Option CppChar :=
  if s.eofbit || s.failbit then ({ s with failbit := true }, none)
  else
    match s.content[s.pos]? with
    | some c => (s, some c)
    | none => ({ s with eofbit := true }, none)

/-- The call `tellg()` on a stream that has not failed: the read position. -/
def IfStream.tellg (s : IfStream) : Nat := s.pos

namespace Tester

/-- First statements of the body of the loop of `ReadFile` in `tester.cpp`: the file is
opened, the saved position is restored and one line is read into a fresh
string. -/
def ReadFile.readLine (file : Option (List CppChar)) (positionInFile : Nat) :
    IfStream × CppString :=
  ((IfStream.open file).seekg positionInFile).getline []

set_option linter.unusedVariables false in
/-- The loop `while (!endOfFile)` of `ReadFile` in `tester.cpp`, entered with the saved
position `positionInFile`: after the line is read, `endOfFile` is set when
`peek()` returns `EOF`; the line is stored only if `endOfFile` is not set, and
the loop ends if it is set. -/
def ReadFile.loop (file : Option (List CppChar)) (positionInFile : Nat)
    (listOut : List CppString) : List CppString :=
  match h : (ReadFile.readLine file positionInFile).1.peek.2 with
  | none => listOut
  | some _ =>
    ReadFile.loop file (ReadFile.readLine file positionInFile).1.peek.1.tellg
      (listOut ++ [(ReadFile.readLine file positionInFile).2])
termination_by (file.getD []).length - positionInFile
decreasing_by
  simp_wf
  have hpeek : ∀ (s : IfStream) (c : CppChar), s.peek.2 = some c →
      s.peek.1 = s ∧ s.eofbit = false ∧ s.failbit = false ∧ s.pos < s.content.length := by
    intro s c hc
    unfold IfStream.peek at hc ⊢
    split at hc
    · simp at hc
    · rename_i hgood
      simp only [Bool.or_eq_true, not_or, Bool.not_eq_true] at hgood
      split at hc
      · rename_i d hd
        rw [if_neg (by simp [hgood.1, hgood.2])]
        exact ⟨rfl, hgood.1, hgood.2, (List.getElem?_eq_some_iff.mp hd).1⟩
      · simp at hc
  have hgetline : ∀ (s : IfStream) (str : CppString), (s.getline str).1.eofbit = false →
      (s.getline str).1.failbit = false →
      s.pos < (s.getline str).1.pos ∧ (s.getline str).1.content = s.content ∧
        s.failbit = false := by
    intro s str he hf
    unfold IfStream.getline at he hf ⊢
    split at he
    · rename_i hbad
      rw [if_pos hbad] at hf
      simp at hf
    · rename_i hgood
      simp only [Bool.or_eq_true, not_or, Bool.not_eq_true] at hgood
      rw [if_neg (by simp [hgood.1, hgood.2])]
      simp only [] at he hf ⊢
      split at he
      · rename_i hlt
        rw [if_pos hlt]
        exact ⟨by simp only []; omega, rfl, hgood.2⟩
      · simp at he
  have hopen : ∀ (p : Nat), ((IfStream.open file).seekg p).content = file.getD [] ∧
      (((IfStream.open file).seekg p).failbit = false →
        ((IfStream.open file).seekg p).pos = p) := by
    intro p
    cases file <;> simp [IfStream.open, IfStream.seekg]
  obtain ⟨h1, h2, h3, h4⟩ := hpeek _ _ h
  obtain ⟨h5, h6, h7⟩ := hgetline _ _ h2 h3
  obtain ⟨h8, h9⟩ := hopen positionInFile
  have h10 := h9 h7
  simp only [IfStream.tellg, ReadFile.readLine] at *
  rw [h1]
  rw [h6, h8] at h4
  rw [h10] at h5
  omega

/-- The function `ReadFile` of `tester.cpp`; `file` is the content of the named file. -/
def ReadFile (file : Option (List CppChar)) : List CppString :=
  ReadFile.loop file 0 []

/-- The function `WriteAndPrintResults` of `tester.cpp`, for an output file that can be
opened: the name of the file that is written and its content, one line per
entry, each followed by the newline of `endl`. -/
def WriteAndPrintResults (_masterStringList : List CppString) (_outputName : CppString) :
    CppString × List CppChar :=
  (_outputName ++ cpp ".txt", (_masterStringList.map (fun s => s ++ [newline])).flatten)

/-- The function `ThreadedReadFile` of `tester.cpp`: the lines of the file are appended to
the list behind `_listOut`. -/
def ThreadedReadFile (file : Option (List CppChar)) (listOut : List CppString) :
    List CppString :=
  listOut ++ ReadFile file

/-- Number of worker threads of `DoMultiThreaded` in `tester.cpp` that call `push_back` on
the shared master list: a thread does so once for every line that `ReadFile`
gives it, so these are the threads whose file gives at least one line. -/
def DoMultiThreaded.appendingThreads (files : CppString → Option (List CppChar))
    (_fileList : List CppString) : Nat :=
  (_fileList.filter (fun name => !(ReadFile (files name)).isEmpty)).length

/-- The function `DoMultiThreaded` of `tester.cpp`: the files that it writes, in the order
of the writes, each with its name and content.  `files` gives the content of
each input file.  One thread per input file runs `ThreadedReadFile` on the shared
master list, all at the same time and without a lock.  When two or more of them
have a line to append, their calls of `push_back` on the one vector are not
ordered and the call has no defined result (`none`).  When at most one thread
appends, the other threads do not touch the master list, and it holds the lines
of that thread after the joins.  The sorted master list is written under the name
`_outputName + "Ascending.txt"`, then it is sorted again with the descending and
with the last-letter comparer and the two results are written under
`_outputName + "Descending.txt"` and `_outputName + "LastLetter.txt"`.  The result is
also `none` when `BubbleSort` reads outside its list. -/
def DoMultiThreaded (unspecified : CppString → CppString → Bool)
    (files : CppString → Option (List CppChar)) (_fileList : List CppString)
    (_sortType : ESortType) (_outputName : CppString) :
    Option (List (CppString × List CppChar)) :=
  if 1 < DoMultiThreaded.appendingThreads files _fileList then none else
  let joined := _fileList.foldl (fun master name => ThreadedReadFile (files name) master) []
  match BubbleSort unspecified joined (CreateComparer _sortType) with
  | none => none
  | some masterStringList =>
    let first := WriteAndPrintResults masterStringList (_outputName ++ cpp "Ascending.txt")
    match BubbleSort unspecified masterStringList (CreateComparer .AlphabeticalDescending) with
    | none => none
    | some descendingList =>
      match BubbleSort unspecified masterStringList (CreateComparer .LastLetterAscending) with
      | none => none
      | some lastLetterList =>
        some [first,
          WriteAndPrintResults descendingList (_outputName ++ cpp "Descending.txt"),
          WriteAndPrintResults lastLetterList (_outputName ++ cpp "LastLetter.txt")]

end Tester

namespace MainTestBest

set_option linter.unusedVariables false in
/-- The loop `while (getline(fileIn, line)) listOut.push_back(line);` of `ReadFile` in
`MainTestBest.cpp`: it goes on while `getline` leaves the stream without `failbit`. -/
def ReadFile.loop (fileIn : IfStream) (line : CppString) (listOut : List CppString) :
    List CppString :=
  if h : (fileIn.getline line).1.failbit = true then listOut
  else ReadFile.loop (fileIn.getline line).1 (fileIn.getline line).2
    (listOut ++ [(fileIn.getline line).2])
termination_by (fileIn.content.length - fileIn.pos) + (if fileIn.eofbit then 0 else 1)
decreasing_by
  simp_wf
  unfold IfStream.getline at h ⊢
  split at h
  · simp at h
  · rename_i hgood
    simp only [Bool.or_eq_true, not_or, Bool.not_eq_true] at hgood
    rw [if_neg (by simp [hgood.1, hgood.2])]
    simp only [] at h ⊢
    split
    · rename_i hlt
      simp only [hgood.1, Bool.false_eq_true, if_false, List.length_drop] at hlt ⊢
      omega
    · simp only [hgood.1, Bool.false_eq_true, if_false, if_true]
      rename_i hnl
      rw [if_neg hnl] at h
      simp only [Bool.not_eq_true, List.isEmpty_eq_false] at h
      have := List.length_pos.mpr h
      omega

/-- The function `ReadFile` of `MainTestBest.cpp`; `file` is the content of the named file,
`none` when it cannot be opened. -/
def ReadFile (file : Option (List CppChar)) : List CppString :=
  ReadFile.loop (IfStream.open file) [] []

/-- The function `WriteAndPrintResults` of `MainTestBest.cpp`: the name of the file that is
written and its content, one line per entry, each followed by the newline of
`endl`. -/
def WriteAndPrintResults (_masterStringList : List CppString) (_outputName : CppString) :
    CppString × List CppChar :=
  (_outputName ++ cpp ".txt", (_masterStringList.map (fun s => s ++ [newline])).flatten)

end MainTestBest

/-! ## List-level descriptions used in the proofs -/

/-- One run of the inner loop of `BubbleSort` seen on lists: `x` is the element at
the counter, the argument list is what lies behind it, and `f` is the
comparison the loop goes on with. -/
def bubble (f : CppString → CppString → Bool) (x : CppString) :
    List CppString → List CppString
  | [] => [x]
  | y :: t => if !f x y then y :: bubble f x t else x :: bubble f y t

/-- One full run of the inner loop of `BubbleSort` seen on lists. -/
def bubblePass (f : CppString → CppString → Bool) : List CppString → List CppString
  | [] => []
  | x :: t => bubble f x t

/-- The three `while` loops of `merge` seen on lists: the left run `l` and the
right run `r` are merged, the head of `l` going first when `f` does not put
it above the head of `r`. -/
def mergeRuns (f : CppString → CppString → Bool) :
    List CppString → List CppString → List CppString
  | [], r => r
  | l, [] => l
  | x :: l, y :: r =>
    if !f x y then x :: mergeRuns f l (y :: r) else y :: mergeRuns f (x :: l) r

/-- Value of the last character of a string as a `char` (`0` for the empty string). -/
def lastKey (s : CppString) : Int :=
  match s.getLast? with
  | some x => charValue x
  | none => 0

/-- Order of two strings by their last characters, compared as `char`s. -/
def LastLetterLe (a b : CppString) : Prop :=
  ∃ x y, a.getLast? = some x ∧ b.getLast? = some y ∧ charValue x ≤ charValue y

/-- The recursion of `mergeSort` seen on the run `arr[low..high]` as a list: a
run of at least two elements is split behind position `mid - low`, that is after
`(length - 1) / 2 + 1` elements, the two parts are sorted and then merged. -/
def mergeSortRuns (f : CppString → CppString → Bool) (seg : List CppString) : List CppString :=
  if 1 < seg.length then
    mergeRuns f (mergeSortRuns f (seg.take ((seg.length - 1) / 2 + 1)))
      (mergeSortRuns f (seg.drop ((seg.length - 1) / 2 + 1)))
  else seg
termination_by seg.length
decreasing_by
  all_goals simp_wf
  all_goals omega

/-! ## `BubbleSort` of `tester.cpp` as iterated passes -/

theorem swapIfNotAbove_append (u : CppString → CppString → Bool) (c : IStringComparer)
    (pre : List CppString) (x y : CppString) (t : List CppString) :
    Tester.swapIfNotAbove u c (pre ++ x :: y :: t) pre.length =
      some (if !c.answer u x y then pre ++ y :: x :: t else pre ++ x :: y :: t) := by
  unfold Tester.swapIfNotAbove
  have h1 : (pre ++ x :: y :: t)[pre.length]? = some x := by
    rw [List.getElem?_append_right (le_refl _)]; simp
  have h2 : (pre ++ x :: y :: t)[pre.length + 1]? = some y := by
    rw [List.getElem?_append_right (by omega)]; simp
  rw [h1, h2]
  simp only []
  have h3 : ((pre ++ x :: y :: t).set pre.length y).set (pre.length + 1) x = pre ++ y :: x :: t := by
    rw [List.set_append_right _ _ (by omega)]
    simp
  rw [h3]
  split <;> simp_all

theorem innerLoop_append (u : CppString → CppString → Bool) (c : IStringComparer)
    (t : List CppString) : ∀ (pre : List CppString) (x : CppString) (bound j : Nat),
    j = pre.length → bound = pre.length + t.length →
    Tester.innerLoop u c bound j (pre ++ x :: t) =
      some (pre ++ bubble (c.answer u) x t) := by
  induction t with
  | nil =>
    intro pre x bound j hj hb
    rw [Tester.innerLoop, if_neg (by simp [hj, hb])]
    simp [bubble]
  | cons y t ih =>
    intro pre x bound j hj hb
    rw [Tester.innerLoop, if_pos (by simp [hj, hb]), hj, swapIfNotAbove_append]
    simp only []
    by_cases h : c.answer u x y = true
    · have := ih (pre ++ [x]) y bound (pre.length + 1) (by simp) (by simp [hb]; omega)
      simp only [List.append_assoc, List.singleton_append] at this
      simp only [bubble, h, Bool.not_true, Bool.false_eq_true, if_false]
      exact this
    · have := ih (pre ++ [y]) x bound (pre.length + 1) (by simp) (by simp [hb]; omega)
      simp only [List.append_assoc, List.singleton_append] at this
      simp only [Bool.not_eq_true] at h
      simp only [bubble, h, Bool.not_false, if_true]
      exact this

theorem bubble_perm (f : CppString → CppString → Bool) (t : List CppString) :
    ∀ x, (bubble f x t).Perm (x :: t) := by
  induction t with
  | nil => intro x; simp [bubble]
  | cons y t ih =>
    intro x
    unfold bubble
    split
    · exact ((ih x).cons y).trans (List.Perm.swap x y t)
    · exact (ih y).cons x

theorem bubblePass_perm (f : CppString → CppString → Bool) (l : List CppString) :
    (bubblePass f l).Perm l := by
  cases l with
  | nil => simp [bubblePass]
  | cons x t => exact bubble_perm f t x

theorem iterate_bubblePass_perm (f : CppString → CppString → Bool) (n : Nat)
    (l : List CppString) : ((bubblePass f)^[n] l).Perm l := by
  induction n generalizing l with
  | zero => simp
  | succ n ih =>
    rw [Function.iterate_succ_apply]
    exact (ih _).trans (bubblePass_perm f l)

theorem sizeMinusOne_of_pos {n : Nat} (h : 0 < n) : sizeMinusOne n = n - 1 := by
  unfold sizeMinusOne
  rw [if_neg (by omega)]

theorem sizeMinusOne_eq_mod (n : Nat) (h : n < 2 ^ 64) :
    sizeMinusOne n = (n + 2 ^ 64 - 1) % 2 ^ 64 := by
  unfold sizeMinusOne
  split <;> omega

theorem innerLoop_eq_bubblePass (u : CppString → CppString → Bool) (c : IStringComparer)
    (l : List CppString) (hl : l ≠ []) :
    Tester.innerLoop u c (sizeMinusOne l.length) 0 l = some (bubblePass (c.answer u) l) := by
  cases l with
  | nil => exact absurd rfl hl
  | cons x t =>
    have := innerLoop_append u c t [] x (sizeMinusOne (x :: t).length) 0 rfl
      (by simp [sizeMinusOne])
    simpa [bubblePass] using this

theorem outerLoop_eq_iterate (u : CppString → CppString → Bool) (c : IStringComparer)
    (n : Nat) : ∀ (bound i : Nat) (l : List CppString), l ≠ [] → bound - i = n →
    Tester.outerLoop u c bound i l = some ((bubblePass (c.answer u))^[n] l) := by
  induction n with
  | zero =>
    intro bound i l _ hn
    rw [Tester.outerLoop, if_neg (by omega)]
    rfl
  | succ n ih =>
    intro bound i l hl hn
    rw [Tester.outerLoop, if_pos (by omega), innerLoop_eq_bubblePass u c l hl]
    simp only []
    rw [ih bound (i + 1) _ _ (by omega), Function.iterate_succ_apply]
    intro h
    have := (bubblePass_perm (c.answer u) l).length_eq
    rw [h] at this
    exact hl (List.length_eq_zero.mp this.symm)

theorem BubbleSort_eq_iterate (u : CppString → CppString → Bool) (c : IStringComparer)
    (l : List CppString) (hl : l ≠ []) :
    Tester.BubbleSort u l c = some ((bubblePass (c.answer u))^[l.length - 1] l) := by
  unfold Tester.BubbleSort
  have hlen : 0 < l.length := List.length_pos.mpr hl
  exact outerLoop_eq_iterate u c _ _ 0 l hl (by rw [sizeMinusOne_of_pos hlen]; omega)

/-! ## Sortedness of the iterated passes -/

section Sorting

variable {S : CppString → CppString → Prop} {g : CppString → CppString → Bool}

theorem bubble_mem_iff (f : CppString → CppString → Bool) (t : List CppString) (x z : CppString) :
    z ∈ bubble f x t ↔ z ∈ x :: t :=
  (bubble_perm f t x).mem_iff

theorem bubble_pairwise (h2 : ∀ a b, g a b = false → S b a) (s : List CppString) :
    ∀ c, List.Pairwise S (c :: s) → List.Pairwise S (bubble g c s) := by
  induction s with
  | nil => intro c _; simp [bubble]
  | cons y s ih =>
    intro c hc
    rw [List.pairwise_cons] at hc
    obtain ⟨hcy, hys⟩ := hc
    have hys2 := List.pairwise_cons.mp hys
    unfold bubble
    by_cases h : g c y = true
    · simp only [h, Bool.not_true, Bool.false_eq_true, if_false]
      rw [List.pairwise_cons]
      refine ⟨?_, ih y hys⟩
      intro z hz
      rw [bubble_mem_iff] at hz
      exact hcy z hz
    · simp only [Bool.not_eq_true] at h
      simp only [h, Bool.not_false, if_true]
      rw [List.pairwise_cons]
      refine ⟨?_, ih c ?_⟩
      · intro z hz
        rw [bubble_mem_iff] at hz
        rcases List.mem_cons.mp hz with rfl | hz
        · exact h2 _ _ h
        · exact hys2.1 z hz
      · rw [List.pairwise_cons]
        exact ⟨fun z hz => hcy z (List.mem_cons_of_mem _ hz), hys2.2⟩

theorem bubble_suffix (h1 : ∀ a b, g a b = true → S a b) (h2 : ∀ a b, g a b = false → S b a)
    (h3 : ∀ a b c, S a b → S b c → S a c) (s : List CppString) (hs : List.Pairwise S s)
    (p : List CppString) : ∀ x, (∀ a ∈ x :: p, ∀ y ∈ s, S a y) →
    ∃ p1 s1, bubble g x (p ++ s) = p1 ++ s1 ∧ s1.length = s.length + 1 ∧
      List.Pairwise S s1 ∧ (∀ y ∈ s1, ∀ a ∈ x :: p, S a y) ∧ (∀ a ∈ p1, a ∈ x :: p) := by
  have hrefl : ∀ a, S a a := by
    intro a
    cases h : g a a
    · exact h2 a a h
    · exact h1 a a h
  induction p with
  | nil =>
    intro x hx
    refine ⟨[], bubble g x s, by simp, ?_, ?_, ?_, by simp⟩
    · simpa using (bubble_perm g s x).length_eq
    · apply bubble_pairwise h2
      rw [List.pairwise_cons]
      exact ⟨fun y hy => hx x (List.mem_cons_self _ _) y hy, hs⟩
    · intro y hy a ha
      rw [bubble_mem_iff] at hy
      simp only [List.mem_singleton] at ha
      subst ha
      rcases List.mem_cons.mp hy with rfl | hy
      · exact hrefl _
      · exact hx a (List.mem_cons_self _ _) y hy
  | cons y p ih =>
    intro x hx
    simp only [List.cons_append]
    unfold bubble
    by_cases h : g x y = true
    · simp only [h, Bool.not_true, Bool.false_eq_true, if_false]
      obtain ⟨p1, s1, he, hl, hp, hmax, hsub⟩ := ih y (fun a ha z hz =>
        hx a (List.mem_cons_of_mem _ ha) z hz)
      refine ⟨x :: p1, s1, by simp [he], hl, hp, ?_, ?_⟩
      · intro z hz a ha
        rcases List.mem_cons.mp ha with rfl | ha
        · exact h3 _ _ _ (h1 _ _ h) (hmax z hz y (List.mem_cons_self _ _))
        · exact hmax z hz a ha
      · intro a ha
        rcases List.mem_cons.mp ha with rfl | ha
        · exact List.mem_cons_self _ _
        · exact List.mem_cons_of_mem _ (hsub a ha)
    · simp only [Bool.not_eq_true] at h
      simp only [h, Bool.not_false, if_true]
      obtain ⟨p1, s1, he, hl, hp, hmax, hsub⟩ := ih x (fun a ha z hz => by
        rcases List.mem_cons.mp ha with rfl | ha
        · exact hx a (List.mem_cons_self _ _) z hz
        · exact hx a (List.mem_cons_of_mem _ (List.mem_cons_of_mem _ ha)) z hz)
      refine ⟨y :: p1, s1, by simp [he], hl, hp, ?_, ?_⟩
      · intro z hz a ha
        rcases List.mem_cons.mp ha with rfl | ha
        · exact hmax z hz a (List.mem_cons_self _ _)
        · rcases List.mem_cons.mp ha with rfl | ha
          · exact h3 _ _ _ (h2 _ _ h) (hmax z hz x (List.mem_cons_self _ _))
          · exact hmax z hz a (List.mem_cons_of_mem _ ha)
      · intro a ha
        rcases List.mem_cons.mp ha with rfl | ha
        · exact List.mem_cons_of_mem _ (List.mem_cons_self _ _)
        · rcases List.mem_cons.mp (hsub a ha) with rfl | hm
          · exact List.mem_cons_self _ _
          · exact List.mem_cons_of_mem _ (List.mem_cons_of_mem _ hm)

/-- After `k` passes the last `k` elements are in order and bound the others from above. -/
theorem iterate_bubblePass_suffix (h1 : ∀ a b, g a b = true → S a b)
    (h2 : ∀ a b, g a b = false → S b a) (h3 : ∀ a b c, S a b → S b c → S a c)
    (l : List CppString) (k : Nat) (hk : k < l.length ∨ l = [] ∧ k = 0) :
    ∃ p s, (bubblePass g)^[k] l = p ++ s ∧ s.length = k ∧ List.Pairwise S s ∧
      ∀ a ∈ p, ∀ y ∈ s, S a y := by
  induction k with
  | zero => exact ⟨l, [], by simp, rfl, List.Pairwise.nil, by simp⟩
  | succ k ih =>
    have hk2 : k + 1 < l.length := by
      rcases hk with h | ⟨_, h⟩
      · exact h
      · omega
    obtain ⟨p, s, he, hl, hp, hb⟩ := ih (Or.inl (by omega))
    rw [Function.iterate_succ_apply', he]
    have hlen : (p ++ s).length = l.length := by
      rw [← he]; exact (iterate_bubblePass_perm g k l).length_eq
    cases p with
    | nil => simp at hlen; omega
    | cons x p =>
      obtain ⟨p1, s1, he1, hl1, hp1, hmax, hsub⟩ := bubble_suffix h1 h2 h3 s hp p x hb
      refine ⟨p1, s1, ?_, by omega, hp1, fun a ha y hy => hmax y hy a (hsub a ha)⟩
      simpa [bubblePass] using he1

theorem iterate_bubblePass_pairwise (h1 : ∀ a b, g a b = true → S a b)
    (h2 : ∀ a b, g a b = false → S b a) (h3 : ∀ a b c, S a b → S b c → S a c)
    (l : List CppString) : List.Pairwise S ((bubblePass g)^[l.length - 1] l) := by
  cases l with
  | nil => simp
  | cons x t =>
    obtain ⟨p, s, he, hl, hp, hb⟩ := iterate_bubblePass_suffix h1 h2 h3 (x :: t)
      ((x :: t).length - 1) (Or.inl (by simp))
    have hlen : (p ++ s).length = (x :: t).length := by
      rw [← he]; exact (iterate_bubblePass_perm g _ _).length_eq
    rw [he]
    rw [List.pairwise_append]
    refine ⟨?_, hp, hb⟩
    have : p.length = 1 := by
      simp only [List.length_append, List.length_cons] at hlen hl
      simp only [List.length_cons, Nat.add_sub_cancel] at hl
      omega
    match p, this with
    | [a], _ => simp

end Sorting

/-! ## The order of `std::string` -/

theorem cons_lt_cons_iff_string (a b : CppChar) (as bs : CppString) :
    (a :: as : CppString) < b :: bs ↔ a < b ∨ (a = b ∧ as < bs) := by
  show List.Lex (· < ·) (a :: as) (b :: bs) ↔ a < b ∨ (a = b ∧ List.Lex (· < ·) as bs)
  constructor
  · intro h
    cases h with
    | cons h => exact Or.inr ⟨rfl, h⟩
    | rel h => exact Or.inl h
  · rintro (h | ⟨rfl, h⟩)
    · exact List.Lex.rel h
    · exact List.Lex.cons h

theorem string_lt_append (a b : CppString) (hb : b ≠ []) : a < a ++ b := by
  induction a with
  | nil =>
    cases b with
    | nil => exact absurd rfl hb
    | cons y b => exact List.nil_lt_cons _ _
  | cons x a ih =>
    rw [List.cons_append, cons_lt_cons_iff_string]
    exact Or.inr ⟨rfl, ih⟩

/-- `std::string`'s `_first > _second` is the lexicographic order of the byte lists. -/
theorem stringCompare_pos_iff (a : CppString) : ∀ b : CppString, stringCompare a b > 0 ↔ b < a := by
  induction a with
  | nil =>
    intro b
    cases b with
    | nil => simp [stringCompare]
    | cons y bs =>
      simp only [stringCompare]
      constructor
      · intro h; omega
      · intro h; exact absurd h (List.Lex.not_nil_right _ _)
  | cons x as ih =>
    intro b
    cases b with
    | nil =>
      simp only [stringCompare]
      constructor
      · intro _; exact List.nil_lt_cons _ _
      · intro _; omega
    | cons y bs =>
      rw [cons_lt_cons_iff_string]
      simp only [stringCompare]
      by_cases h1 : x.val < y.val
      · rw [if_pos h1]
        constructor
        · intro h; omega
        · rintro (h | ⟨h, _⟩)
          · exact absurd (Fin.lt_def.mp h) (by omega)
          · subst h; omega
      · rw [if_neg h1]
        by_cases h2 : y.val < x.val
        · rw [if_pos h2]
          constructor
          · intro _; exact Or.inl (Fin.lt_def.mpr h2)
          · intro _; omega
        · rw [if_neg h2, ih bs]
          have hxy : y = x := Fin.ext (by omega)
          constructor
          · intro h; exact Or.inr ⟨hxy, h⟩
          · rintro (h | ⟨_, h⟩)
            · exact absurd (Fin.lt_def.mp h) h2
            · exact h

theorem descending_answer (u : CppString → CppString → Bool) (a b : CppString) :
    (Tester.CreateComparer .AlphabeticalDescending).answer u a b = decide (b < a) := by
  simp only [IStringComparer.answer, Tester.CreateComparer, Option.getD_some,
    AlphabeticalDescendingStringComparer.IsFirstAboveSecond]
  exact decide_eq_decide.mpr (stringCompare_pos_iff a b)

/-! ## Passes that go on with comparisons that agree on the list -/

theorem bubble_congr {f g : CppString → CppString → Bool} (t : List CppString) :
    ∀ x, (∀ a ∈ x :: t, ∀ b ∈ x :: t, f a b = g a b) → bubble f x t = bubble g x t := by
  induction t with
  | nil => intro x _; rfl
  | cons y t ih =>
    intro x h
    have hxy : f x y = g x y :=
      h x (List.mem_cons_self _ _) y (List.mem_cons_of_mem _ (List.mem_cons_self _ _))
    have hx : bubble f x t = bubble g x t := ih x (fun a ha b hb => by
      apply h
      · rcases List.mem_cons.mp ha with rfl | ha
        · exact List.mem_cons_self _ _
        · exact List.mem_cons_of_mem _ (List.mem_cons_of_mem _ ha)
      · rcases List.mem_cons.mp hb with rfl | hb
        · exact List.mem_cons_self _ _
        · exact List.mem_cons_of_mem _ (List.mem_cons_of_mem _ hb))
    have hy : bubble f y t = bubble g y t := ih y (fun a ha b hb =>
      h a (List.mem_cons_of_mem _ ha) b (List.mem_cons_of_mem _ hb))
    simp only [bubble, hxy, hx, hy]

theorem iterate_bubblePass_congr {f g : CppString → CppString → Bool} (n : Nat) :
    ∀ l : List CppString, (∀ a ∈ l, ∀ b ∈ l, f a b = g a b) →
      (bubblePass f)^[n] l = (bubblePass g)^[n] l := by
  induction n with
  | zero => intro l _; rfl
  | succ n ih =>
    intro l h
    have hp : bubblePass f l = bubblePass g l := by
      cases l with
      | nil => rfl
      | cons x t => exact bubble_congr t x h
    rw [Function.iterate_succ_apply, Function.iterate_succ_apply, hp]
    apply ih
    intro a ha b hb
    exact h a ((bubblePass_perm g l).mem_iff.mp ha) b ((bubblePass_perm g l).mem_iff.mp hb)

/-! ## Claims about `BubbleSort` of `tester.cpp` -/

theorem lastLetter_answer (u : CppString → CppString → Bool) (a b : CppString)
    (ha : a ≠ []) (hb : b ≠ []) :
    (Tester.CreateComparer .LastLetterAscending).answer u a b =
      decide (lastKey a < lastKey b) := by
  obtain ⟨x, hx⟩ := Option.isSome_iff_exists.mp (List.getLast?_isSome.mpr ha)
  obtain ⟨y, hy⟩ := Option.isSome_iff_exists.mp (List.getLast?_isSome.mpr hb)
  simp [IStringComparer.answer, Tester.CreateComparer,
    Tester.LastLetterAscendingStringComparer.IsFirstAboveSecond, lastKey, hx, hy]

/-- C1 (evaluation at the failing input): on the list `"ab", "abc"` the function `BubbleSort` with
the ascending comparer returns `"abc", "ab"`, where the first element is
lexicographically greater than its successor. -/
theorem Tester.BubbleSort_ascending_prefix_pair :
    Tester.BubbleSort (fun _ _ => false) [[97, 98], [97, 98, 99]]
        (Tester.CreateComparer .AlphabeticalAscending) = some [[97, 98, 99], [97, 98]] ∧
      ¬ (([97, 98, 99] : CppString) ≤ [97, 98]) := by
  decide!

/-- C6: for every non-empty list, `BubbleSort` with the descending comparer
returns a list in which every element is lexicographically greater than or equal
to its successor. -/
theorem Tester.BubbleSort_descending (unspecified : CppString → CppString → Bool)
    (l : List CppString) (hl : l ≠ []) :
    ∃ r, Tester.BubbleSort unspecified l (Tester.CreateComparer .AlphabeticalDescending) = some r ∧
      List.Chain' (fun a b => a ≥ b) r := by
  refine ⟨_, BubbleSort_eq_iterate unspecified _ l hl, ?_⟩
  have hg : (Tester.CreateComparer .AlphabeticalDescending).answer unspecified =
      fun a b => decide (b < a) := by
    funext a b
    exact descending_answer unspecified a b
  rw [hg]
  apply List.Pairwise.chain'
  apply iterate_bubblePass_pairwise
  · intro a b h
    exact le_of_lt (of_decide_eq_true h)
  · intro a b h
    exact not_lt.mp (of_decide_eq_false h)
  · intro a b c hab hbc
    exact le_trans hbc hab

theorem Tester.BubbleSort_descending_witness :
    ([[97], [98, 99], [98]] : List CppString) ≠ [] ∧
      ∃ r, Tester.BubbleSort (fun _ _ => false) [[97], [98, 99], [98]]
        (Tester.CreateComparer .AlphabeticalDescending) = some r ∧
        List.Chain' (fun a b => a ≥ b) r :=
  ⟨by decide, Tester.BubbleSort_descending _ _ (by decide)⟩

/-- C7: for every non-empty list of non-empty strings, `BubbleSort` with the
last-letter comparer returns a list in which the last character of every element
is less than or equal to the last character of its successor. -/
theorem Tester.BubbleSort_lastLetter (unspecified : CppString → CppString → Bool)
    (l : List CppString) (hl : l ≠ []) (hne : ∀ s ∈ l, s ≠ []) :
    ∃ r, Tester.BubbleSort unspecified l (Tester.CreateComparer .LastLetterAscending) = some r ∧
      List.Chain' LastLetterLe r := by
  refine ⟨_, BubbleSort_eq_iterate unspecified _ l hl, ?_⟩
  rw [iterate_bubblePass_congr (g := fun a b => decide (lastKey a < lastKey b)) _ l
    (fun a ha b hb => lastLetter_answer unspecified a b (hne a ha) (hne b hb))]
  apply List.Pairwise.chain'
  have hp : List.Pairwise (fun a b => lastKey a ≤ lastKey b)
      ((bubblePass fun a b => decide (lastKey a < lastKey b))^[l.length - 1] l) := by
    apply iterate_bubblePass_pairwise
    · intro a b h
      exact le_of_lt (of_decide_eq_true h)
    · intro a b h
      exact not_lt.mp (of_decide_eq_false h)
    · intro a b c hab hbc
      exact le_trans hab hbc
  refine hp.imp_of_mem ?_
  intro a b ha hb hab
  have ha2 := hne a ((iterate_bubblePass_perm _ _ l).mem_iff.mp ha)
  have hb2 := hne b ((iterate_bubblePass_perm _ _ l).mem_iff.mp hb)
  obtain ⟨x, hx⟩ := Option.isSome_iff_exists.mp (List.getLast?_isSome.mpr ha2)
  obtain ⟨y, hy⟩ := Option.isSome_iff_exists.mp (List.getLast?_isSome.mpr hb2)
  refine ⟨x, y, hx, hy, ?_⟩
  simpa [lastKey, hx, hy] using hab

theorem Tester.BubbleSort_lastLetter_witness :
    ([[97, 122], [98, 99], [98]] : List CppString) ≠ [] ∧
      (∀ s ∈ ([[97, 122], [98, 99], [98]] : List CppString), s ≠ []) ∧
      ∃ r, Tester.BubbleSort (fun _ _ => false) [[97, 122], [98, 99], [98]]
        (Tester.CreateComparer .LastLetterAscending) = some r ∧
        List.Chain' LastLetterLe r :=
  ⟨by decide, by decide, Tester.BubbleSort_lastLetter _ _ (by decide) (by decide)⟩

/-- C8: for every non-empty list and every comparer, `BubbleSort` returns a list
of the same length that is a permutation of its argument: every string occurs
the same number of times in both. -/
theorem Tester.BubbleSort_perm (unspecified : CppString → CppString → Bool)
    (l : List CppString) (comparer : IStringComparer) (hl : l ≠ []) :
    ∃ r, Tester.BubbleSort unspecified l comparer = some r ∧ r.length = l.length ∧
      r.Perm l ∧ ∀ s, r.count s = l.count s := by
  refine ⟨_, BubbleSort_eq_iterate unspecified comparer l hl, ?_, ?_, ?_⟩
  · exact (iterate_bubblePass_perm _ _ l).length_eq
  · exact iterate_bubblePass_perm _ _ l
  · intro s
    exact (iterate_bubblePass_perm _ _ l).countP_eq _

theorem Tester.BubbleSort_perm_witness :
    ([[97, 122], [], [98]] : List CppString) ≠ [] ∧
      ∃ r, Tester.BubbleSort (fun _ _ => true) [[97, 122], [], [98]]
        (Tester.CreateComparer .LastLetterAscending) = some r ∧
        r.length = ([[97, 122], [], [98]] : List CppString).length ∧
        r.Perm [[97, 122], [], [98]] ∧
        ∀ s, r.count s = ([[97, 122], [], [98]] : List CppString).count s :=
  ⟨by decide, Tester.BubbleSort_perm _ _ _ (by decide)⟩

/-- C10 (evaluation at the failing input): the ascending comparer does not put `"ab"` above
`"abc"`, although `"ab"` is a proper prefix of `"abc"` and so lexicographically
less; and it puts `"abc"` above `"ab"`. -/
theorem AlphabeticalAscending_prefix_not_above :
    AlphabeticalAscendingStringComparer.IsFirstAboveSecond [97, 98] [97, 98, 99] = false ∧
      ([97, 98] : CppString) < [97, 98, 99] ∧ ([97, 98] : CppString) ≠ [97, 98, 99] ∧
      AlphabeticalAscendingStringComparer.IsFirstAboveSecond [97, 98, 99] [97, 98] = true := by
  decide

/-! ## `merge` of `MainTestBest.cpp` on lists -/

theorem getElem?_of_drop_eq_cons {v : List CppString} {n : Nat} {y : CppString}
    {rest : List CppString} (h : v.drop n = y :: rest) : v[n]? = some y := by
  induction v generalizing n with
  | nil => simp at h
  | cons a v ih =>
    cases n with
    | zero => simp at h; simp [h.1]
    | succ n => simp at h; simpa using ih h

theorem drop_succ_of_drop_eq_cons {v : List CppString} {n : Nat} {y : CppString}
    {rest : List CppString} (h : v.drop n = y :: rest) : v.drop (n + 1) = rest := by
  induction v generalizing n with
  | nil => simp at h
  | cons a v ih =>
    cases n with
    | zero => simp at h; simp [h.2]
    | succ n => simp at h; simpa using ih h

theorem elementAt_natCast (v : List CppString) (n : Nat) :
    MainTestBest.elementAt v (n : Int) = v[n]? := by
  simp [MainTestBest.elementAt]

theorem assignAt_append (done pad : List CppString) (p x : CppString) (k : Int)
    (hk : k = (done.length : Int)) :
    MainTestBest.assignAt (done ++ p :: pad) k x = some ((done ++ [x]) ++ pad) := by
  subst hk
  simp [MainTestBest.assignAt]

theorem mergeWhileRight_spec (arr : List CppString) (high : Int) (R : List CppString) :
    ∀ (s : MainTestBest.MergeState) (jN : Nat) (done pad X : List CppString),
      s.j = (jN : Int) → s.k = (done.length : Int) → s.temp = done ++ pad →
      arr.drop jN = R ++ X → high + 1 = (jN : Int) + (R.length : Int) → R.length ≤ pad.length →
      ∃ s1, MainTestBest.mergeWhileRight arr high s = some s1 ∧
        s1.temp = done ++ R ++ pad.drop R.length ∧
        s1.k = (done.length : Int) + (R.length : Int) := by
  induction R with
  | nil =>
    intro s jN done pad X hj hk ht _ hh _
    refine ⟨s, ?_, by simpa using ht, by simpa using hk⟩
    rw [MainTestBest.mergeWhileRight, if_neg]
    simp only [List.length_nil, Nat.cast_zero, add_zero] at hh
    omega
  | cons y R ih =>
    intro s jN done pad X hj hk ht hd hh hp
    cases pad with
    | nil => simp at hp
    | cons p pad =>
      simp only [List.length_cons, Nat.cast_add, Nat.cast_one] at hh
      rw [MainTestBest.mergeWhileRight, if_pos (by omega), hj, elementAt_natCast,
        getElem?_of_drop_eq_cons hd]
      simp only []
      rw [ht, assignAt_append done pad p y s.k hk]
      simp only []
      obtain ⟨s1, h1, h2, h3⟩ := ih (MainTestBest.MergeState.mk s.i ((jN : Int) + 1) (s.k + 1) ((done ++ [y]) ++ pad))
        (jN + 1) (done ++ [y]) pad X (by simp) (by simp [hk]) rfl
        (drop_succ_of_drop_eq_cons hd) (by push_cast; omega)
        (by simpa using hp)
      refine ⟨s1, h1, by simpa using h2, ?_⟩
      simp only [List.length_append, List.length_cons, List.length_nil] at h3 ⊢
      push_cast at h3 ⊢
      omega

theorem mergeWhileLeft_spec (arr : List CppString) (mid : Int) (L : List CppString) :
    ∀ (s : MainTestBest.MergeState) (iN : Nat) (done pad X : List CppString),
      s.i = (iN : Int) → s.k = (done.length : Int) → s.temp = done ++ pad →
      arr.drop iN = L ++ X → mid + 1 = (iN : Int) + (L.length : Int) → L.length ≤ pad.length →
      ∃ s1, MainTestBest.mergeWhileLeft arr mid s = some s1 ∧
        s1.temp = done ++ L ++ pad.drop L.length ∧
        s1.k = (done.length : Int) + (L.length : Int) ∧ s1.j = s.j := by
  induction L with
  | nil =>
    intro s iN done pad X hi hk ht _ hh _
    refine ⟨s, ?_, by simpa using ht, by simpa using hk, rfl⟩
    rw [MainTestBest.mergeWhileLeft, if_neg]
    simp only [List.length_nil, Nat.cast_zero, add_zero] at hh
    omega
  | cons x L ih =>
    intro s iN done pad X hi hk ht hd hh hp
    cases pad with
    | nil => simp at hp
    | cons p pad =>
      simp only [List.length_cons, Nat.cast_add, Nat.cast_one] at hh
      rw [MainTestBest.mergeWhileLeft, if_pos (by omega), hi, elementAt_natCast,
        getElem?_of_drop_eq_cons hd]
      simp only []
      rw [ht, assignAt_append done pad p x s.k hk]
      simp only []
      obtain ⟨s1, h1, h2, h3, h4⟩ := ih
        (MainTestBest.MergeState.mk ((iN : Int) + 1) s.j (s.k + 1) ((done ++ [x]) ++ pad))
        (iN + 1) (done ++ [x]) pad X (by simp) (by simp [hk]) rfl
        (drop_succ_of_drop_eq_cons hd) (by push_cast; omega)
        (by simpa using hp)
      refine ⟨s1, h1, by simpa using h2, ?_, h4⟩
      simp only [List.length_append, List.length_cons, List.length_nil] at h3 ⊢
      push_cast at h3 ⊢
      omega

theorem mergeLoops_spec (u : CppString → CppString → Bool) (st : ESortType)
    (arr : List CppString) (mid high : Int) (L : List CppString) :
    ∀ (R : List CppString) (s : MainTestBest.MergeState) (iN jN : Nat)
      (done pad XL XR : List CppString),
      s.i = (iN : Int) → s.j = (jN : Int) → s.k = (done.length : Int) → s.temp = done ++ pad →
      arr.drop iN = L ++ XL → arr.drop jN = R ++ XR →
      mid + 1 = (iN : Int) + (L.length : Int) → high + 1 = (jN : Int) + (R.length : Int) →
      L.length + R.length ≤ pad.length →
      ∃ s1 s2 s3, MainTestBest.mergeWhileBoth u st arr mid high s = some s1 ∧
        MainTestBest.mergeWhileLeft arr mid s1 = some s2 ∧
        MainTestBest.mergeWhileRight arr high s2 = some s3 ∧
        s3.temp = done ++ mergeRuns ((MainTestBest.CreateComparer st).answer u) L R ++
          pad.drop (L.length + R.length) := by
  induction L with
  | nil =>
    intro R s iN jN done pad XL XR hi hj hk ht _ hdR hm hh hp
    simp only [List.length_nil, Nat.cast_zero, add_zero] at hm
    obtain ⟨s3, h3, h4, _⟩ := mergeWhileRight_spec arr high R s jN done pad XR hj hk ht hdR hh
      (by simpa using hp)
    refine ⟨s, s, s3, ?_, ?_, h3, ?_⟩
    · rw [MainTestBest.mergeWhileBoth, if_neg]
      omega
    · rw [MainTestBest.mergeWhileLeft, if_neg]
      omega
    · simpa [mergeRuns] using h4
  | cons x L ihL =>
    intro R
    induction R with
    | nil =>
      intro s iN jN done pad XL XR hi hj hk ht hdL _ hm hh hp
      simp only [List.length_nil, Nat.cast_zero, add_zero] at hh
      obtain ⟨s2, h2, h3, _, h5⟩ := mergeWhileLeft_spec arr mid (x :: L) s iN done pad XL hi hk ht
        hdL hm (by simpa using hp)
      refine ⟨s, s2, s2, ?_, h2, ?_, ?_⟩
      · rw [MainTestBest.mergeWhileBoth, if_neg]
        omega
      · rw [MainTestBest.mergeWhileRight, if_neg]
        omega
      · simpa [mergeRuns] using h3
    | cons y R ihR =>
      intro s iN jN done pad XL XR hi hj hk ht hdL hdR hm hh hp
      cases pad with
      | nil => simp at hp
      | cons p pad =>
        simp only [List.length_cons, Nat.cast_add, Nat.cast_one] at hm hh
        rw [MainTestBest.mergeWhileBoth, if_pos (by omega), hi, hj, elementAt_natCast,
          elementAt_natCast, getElem?_of_drop_eq_cons hdL, getElem?_of_drop_eq_cons hdR]
        simp only []
        rw [ht, assignAt_append done pad p x s.k hk, assignAt_append done pad p y s.k hk]
        simp only []
        by_cases hf : (MainTestBest.CreateComparer st).answer u x y = true
        · simp only [hf, Bool.not_true, Bool.false_eq_true, if_false]
          obtain ⟨s1, s2, s3, h1, h2, h3, h4⟩ := ihR
            (MainTestBest.MergeState.mk (iN : Int) ((jN : Int) + 1) (s.k + 1)
              ((done ++ [y]) ++ pad))
            iN (jN + 1) (done ++ [y]) pad XL XR rfl (by simp) (by simp [hk]) rfl hdL
            (drop_succ_of_drop_eq_cons hdR)
            (by simp only [List.length_cons]; push_cast; omega) (by push_cast; omega)
            (by simp only [List.length_cons] at hp ⊢; omega)
          refine ⟨s1, s2, s3, h1, h2, h3, ?_⟩
          have e : (x :: L).length + (y :: R).length = ((x :: L).length + R.length) + 1 := by
            simp only [List.length_cons]; omega
          rw [h4, e, List.drop_succ_cons]
          simp [mergeRuns, hf]
        · simp only [Bool.not_eq_true] at hf
          simp only [hf, Bool.not_false, if_true]
          obtain ⟨s1, s2, s3, h1, h2, h3, h4⟩ := ihL (y :: R)
            (MainTestBest.MergeState.mk ((iN : Int) + 1) (jN : Int) (s.k + 1)
              ((done ++ [x]) ++ pad))
            (iN + 1) jN (done ++ [x]) pad XL XR (by simp) rfl (by simp [hk]) rfl
            (drop_succ_of_drop_eq_cons hdL) hdR
            (by push_cast; omega) (by simp only [List.length_cons]; push_cast; omega)
            (by simp only [List.length_cons] at hp ⊢; omega)
          refine ⟨s1, s2, s3, h1, h2, h3, ?_⟩
          have e : (x :: L).length + (y :: R).length = (L.length + (y :: R).length) + 1 := by
            simp only [List.length_cons]; omega
          rw [h4, e, List.drop_succ_cons]
          simp [mergeRuns, hf]

theorem mergeCopyBack_spec (high : Int) (C : List CppString) (T2 : List CppString) :
    ∀ (T1 A B : List CppString) (k i : Int), k = (T1.length : Int) → i = (A.length : Int) →
      B.length = T2.length → high + 1 = (A.length : Int) + (T2.length : Int) →
      MainTestBest.mergeCopyBack (T1 ++ T2) high k i (A ++ B ++ C) = some (A ++ T2 ++ C) := by
  induction T2 with
  | nil =>
    intro T1 A B k i _ hi hB hh
    have : B = [] := List.length_eq_zero.mp hB
    subst this
    simp only [List.length_nil, Nat.cast_zero, add_zero] at hh
    rw [MainTestBest.mergeCopyBack, if_neg (by omega)]
  | cons x T2 ih =>
    intro T1 A B k i hk hi hB hh
    cases B with
    | nil => simp at hB
    | cons b B =>
      simp only [List.length_cons, Nat.cast_add, Nat.cast_one] at hh
      have he : MainTestBest.elementAt (T1 ++ x :: T2) k = some x := by
        rw [hk, elementAt_natCast, List.getElem?_append_right (le_refl _)]
        simp
      have ha : MainTestBest.assignAt (A ++ b :: B ++ C) i x = some ((A ++ [x]) ++ (B ++ C)) := by
        have := assignAt_append A (B ++ C) b x i hi
        simpa using this
      rw [MainTestBest.mergeCopyBack, if_pos (by omega), he]
      simp only []
      rw [ha]
      simp only []
      have hA : high + 1 = ((A ++ [x]).length : Int) + (T2.length : Int) := by
        simp only [List.length_append, List.length_cons, List.length_nil]
        push_cast
        omega
      have := ih (T1 ++ [x]) (A ++ [x]) B (k + 1) (i + 1) (by simp [hk]) (by simp [hi])
        (by simpa using hB) hA
      simpa [List.append_assoc] using this

theorem mergeRuns_perm (f : CppString → CppString → Bool) (l : List CppString) :
    ∀ r, (mergeRuns f l r).Perm (l ++ r) := by
  induction l with
  | nil => intro r; simp [mergeRuns]
  | cons x l ihl =>
    intro r
    induction r with
    | nil => simp [mergeRuns]
    | cons y r ihr =>
      unfold mergeRuns
      split
      · exact (ihl (y :: r)).cons x
      · refine (ihr.cons y).trans ?_
        exact (List.perm_middle : ((x :: l) ++ y :: r).Perm (y :: ((x :: l) ++ r))).symm

theorem merge_spec (u : CppString → CppString → Bool) (st : ESortType)
    (pre L R post : List CppString) (low mid high : Int) (hlow : low = (pre.length : Int))
    (hmid : mid + 1 = (pre.length : Int) + (L.length : Int))
    (hhigh : high + 1 = (pre.length : Int) + (L.length : Int) + (R.length : Int)) :
    MainTestBest.merge u (pre ++ L ++ R ++ post) low mid high st =
      some (pre ++ mergeRuns ((MainTestBest.CreateComparer st).answer u) L R ++ post) := by
  have hsize : (high - low + 1).toNat = L.length + R.length := by omega
  have hdL : (pre ++ L ++ R ++ post).drop pre.length = L ++ (R ++ post) := by
    rw [List.append_assoc, List.append_assoc]
    exact List.drop_left' rfl
  have hdR : (pre ++ L ++ R ++ post).drop (pre.length + L.length) = R ++ post := by
    rw [List.append_assoc]
    exact List.drop_left' (by simp)
  obtain ⟨s1, s2, s3, h1, h2, h3, h4⟩ := mergeLoops_spec u st (pre ++ L ++ R ++ post) mid high L R
    (MainTestBest.MergeState.mk low (mid + 1) 0 (List.replicate (L.length + R.length) []))
    pre.length (pre.length + L.length) [] (List.replicate (L.length + R.length) [])
    (R ++ post) post hlow (by push_cast; omega) rfl rfl hdL hdR
    hmid (by push_cast; omega) (by simp)
  unfold MainTestBest.merge
  rw [if_neg (by omega)]
  simp only [hsize, h1, h2, h3]
  rw [h4]
  have hlen : (L ++ R).length =
      (mergeRuns ((MainTestBest.CreateComparer st).answer u) L R).length :=
    (mergeRuns_perm _ L R).length_eq.symm
  have := mergeCopyBack_spec high post
    (mergeRuns ((MainTestBest.CreateComparer st).answer u) L R) [] pre (L ++ R) 0 low rfl hlow
    hlen (by rw [← hlen]; simp only [List.length_append]; push_cast; omega)
  simpa using this

/-! ## `mergeSort` of `MainTestBest.cpp` on lists -/

theorem mergeSortRuns_perm (f : CppString → CppString → Bool) (n : Nat) :
    ∀ seg : List CppString, seg.length = n → (mergeSortRuns f seg).Perm seg := by
  induction n using Nat.strong_induction_on with
  | _ n ih =>
    intro seg hn
    rw [mergeSortRuns]
    split
    · rename_i h
      refine (mergeRuns_perm f _ _).trans ?_
      have h1 := ih (seg.take ((seg.length - 1) / 2 + 1)).length
        (by rw [List.length_take]; omega) _ rfl
      have h2 := ih (seg.drop ((seg.length - 1) / 2 + 1)).length
        (by rw [List.length_drop]; omega) _ rfl
      have := h1.append h2
      rwa [List.take_append_drop] at this
    · exact List.Perm.refl _

theorem mergeSort_spec (u : CppString → CppString → Bool) (st : ESortType) (n : Nat) :
    ∀ (seg pre post arr : List CppString) (low high depth : Int), seg.length = n →
      arr = pre ++ seg ++ post → low = (pre.length : Int) →
      high + 1 = (pre.length : Int) + (seg.length : Int) →
      MainTestBest.mergeSort u arr low high st depth =
        some (pre ++ mergeSortRuns ((MainTestBest.CreateComparer st).answer u) seg ++ post) := by
  induction n using Nat.strong_induction_on with
  | _ n ih =>
    intro seg pre post arr low high depth hn harr hlow hhigh
    by_cases h : low < high
    · have hlen : 1 < seg.length := by omega
      have hdiv : Int.tdiv (high - low) 2 = (high - low) / 2 :=
        Int.tdiv_eq_ediv (by omega) (by decide)
      have hhalf : (((seg.length - 1) / 2 + 1 : Nat) : Int) = (high - low) / 2 + 1 := by
        push_cast
        omega
      have htake : (seg.take ((seg.length - 1) / 2 + 1)).length = (seg.length - 1) / 2 + 1 := by
        rw [List.length_take]; omega
      have hdrop : (seg.drop ((seg.length - 1) / 2 + 1)).length =
          seg.length - ((seg.length - 1) / 2 + 1) := List.length_drop _ _
      have hleft := ih _ (by omega) (seg.take ((seg.length - 1) / 2 + 1)) pre
        (seg.drop ((seg.length - 1) / 2 + 1) ++ post) arr low (low + (high - low) / 2)
        (depth + 1) rfl
        (by rw [harr]; simp only [List.append_assoc]
            rw [← List.append_assoc (List.take _ seg), List.take_append_drop]) hlow
        (by rw [htake, hhalf]; omega)
      have hpl := (mergeSortRuns_perm ((MainTestBest.CreateComparer st).answer u) _
        (seg.take ((seg.length - 1) / 2 + 1)) rfl).length_eq
      have hpr := (mergeSortRuns_perm ((MainTestBest.CreateComparer st).answer u) _
        (seg.drop ((seg.length - 1) / 2 + 1)) rfl).length_eq
      have hright := ih (seg.drop ((seg.length - 1) / 2 + 1)).length (by omega)
        (seg.drop ((seg.length - 1) / 2 + 1))
        (pre ++ mergeSortRuns ((MainTestBest.CreateComparer st).answer u)
          (seg.take ((seg.length - 1) / 2 + 1))) post _ (low + (high - low) / 2 + 1) high
        (depth + 1) rfl (List.append_assoc _ _ _).symm
        (by rw [List.length_append, hpl, htake]; push_cast; omega)
        (by rw [List.length_append, hpl, htake, hdrop]; push_cast; omega)
      have hmerge := merge_spec u st pre
        (mergeSortRuns ((MainTestBest.CreateComparer st).answer u)
          (seg.take ((seg.length - 1) / 2 + 1)))
        (mergeSortRuns ((MainTestBest.CreateComparer st).answer u)
          (seg.drop ((seg.length - 1) / 2 + 1))) post low (low + (high - low) / 2) high hlow
        (by rw [hpl, htake]; push_cast; omega)
        (by rw [hpl, hpr, htake, hdrop]; push_cast; omega)
      rw [MainTestBest.mergeSort, if_pos h]
      simp only [hdiv, ite_self, hleft, hright, hmerge]
      conv_rhs => rw [mergeSortRuns, if_pos hlen]
    · have hlen : ¬ 1 < seg.length := by omega
      rw [MainTestBest.mergeSort, if_neg h, mergeSortRuns, if_neg hlen, harr]

/-! ## Claims about `mergeSort` and the drivers of `MainTestBest.cpp` -/

/-- C2 (evaluation at the failing input): on the list `"a", "b"`, which is in ascending order,
`mergeSort(arr, 0, 1, ESortType::AlphabeticalAscending)` leaves `"b", "a"`, where the first
element is lexicographically greater than its successor. -/
theorem MainTestBest.mergeSort_ascending_pair :
    MainTestBest.mergeSort (fun _ _ => false) [[97], [98]] 0 1 .AlphabeticalAscending 0 =
        some [[98], [97]] ∧
      ¬ (([98] : CppString) ≤ [97]) := by
  decide!

/-- C3 (evaluation at the failing input): with two input files that hold the lines `"a"` and
`"b"`, the master list that `DoSingleThreaded` hands on is `"a"` alone; the line of
the second file is left out, so the list is no permutation of all lines. -/
theorem MainTestBest.DoSingleThreaded_skips_second_file :
    MainTestBest.DoSingleThreaded (fun _ _ => false)
        (fun name => if name = [102] then [[97]] else [[98]]) [[102], [103]]
        .AlphabeticalAscending = some [[97]] ∧
      ¬ List.Perm ([[97]] : List CppString)
        (([[102], [103]] : List CppString).map
          (fun name => if name = [102] then [[97]] else [[98]])).flatten := by
  decide!

/-- C4 (evaluation at the failing input): with two input files that hold the lines `"a"` and
`"b"`, `DoSingleThreaded` hands on the master list `"a"` and `DoMultiThreaded` hands on
the master list `"b", "a"`. -/
theorem MainTestBest.DoSingleThreaded_ne_DoMultiThreaded :
    MainTestBest.DoSingleThreaded (fun _ _ => false)
        (fun name => if name = [102] then [[97]] else [[98]]) [[102], [103]]
        .AlphabeticalAscending = some [[97]] ∧
      MainTestBest.DoMultiThreaded (fun _ _ => false)
        (fun name => if name = [102] then [[97]] else [[98]]) [[102], [103]]
        .AlphabeticalAscending = some [[98], [97]] := by
  decide!

/-- C5 (evaluation at the failing input): on the list `"a", "b"` and for each of the two
alphabetical sort types, `mergeSort` of `MainTestBest.cpp` and `BubbleSort` of `tester.cpp`
leave different sequences. -/
theorem mergeSort_ne_BubbleSort_pair :
    MainTestBest.mergeSort (fun _ _ => false) [[97], [98]] 0 1 .AlphabeticalAscending 0 =
        some [[98], [97]] ∧
      Tester.BubbleSort (fun _ _ => false) [[97], [98]]
        (Tester.CreateComparer .AlphabeticalAscending) = some [[97], [98]] ∧
      MainTestBest.mergeSort (fun _ _ => false) [[97], [98]] 0 1 .AlphabeticalDescending 0 =
        some [[97], [98]] ∧
      Tester.BubbleSort (fun _ _ => false) [[97], [98]]
        (Tester.CreateComparer .AlphabeticalDescending) = some [[98], [97]] := by
  decide!

/-- C9: for every list `arr` of length `n`, every sort type and every depth,
`mergeSort(arr, 0, n - 1, sortType, depth)` returns, and the resulting list has
length `n` and is a permutation of `arr`. -/
theorem MainTestBest.mergeSort_perm (unspecified : CppString → CppString → Bool)
    (arr : List CppString) (sortType : ESortType) (depth : Int) :
    ∃ r, MainTestBest.mergeSort unspecified arr 0 ((arr.length : Int) - 1) sortType depth =
        some r ∧ r.length = arr.length ∧ r.Perm arr := by
  have h := mergeSort_spec unspecified sortType arr.length arr [] [] arr 0
    ((arr.length : Int) - 1) depth rfl (by simp) (by simp) (by simp)
  have hp := mergeSortRuns_perm ((MainTestBest.CreateComparer sortType).answer unspecified)
    arr.length arr rfl
  refine ⟨_, h, ?_, ?_⟩
  · simpa using hp.length_eq
  · simpa using hp

/-! ## Claims about the comparers -/

/-- C11 (evaluation at the failing input): the descending comparer puts `"abc"` above `"ab"`,
but the ascending comparer does not put `"ab"` above `"abc"`; the two strings
are distinct. -/
theorem descending_not_reverse_of_ascending :
    AlphabeticalDescendingStringComparer.IsFirstAboveSecond [97, 98, 99] [97, 98] = true ∧
      AlphabeticalAscendingStringComparer.IsFirstAboveSecond [97, 98] [97, 98, 99] = false ∧
      ([97, 98, 99] : CppString) ≠ [97, 98] := by
  decide

/-- C12 (evaluation at the failing input): in `MainTestBest.cpp` the last-letter comparer gives
no answer for `"a"` and `"b"` (the end of the function is reached without a
`return`), although the last character of `"a"` is less than that of `"b"`. -/
theorem MainTestBest.lastLetter_no_answer :
    MainTestBest.LastLetterAscendingStringComparer.IsFirstAboveSecond [97] [98] = none ∧
      ([97] : CppString).getLast? = some 97 ∧ ([98] : CppString).getLast? = some 98 ∧
      charValue 97 < charValue 98 := by
  decide

/-- C13: in `MainTestBest.cpp` and in `MainTestFinal.cpp` the last-letter comparer returns
`false` whenever one of the two strings is empty; the answer is defined, so no
character of either string is read. -/
theorem lastLetter_false_of_empty (a b : CppString) (h : a = [] ∨ b = []) :
    MainTestBest.LastLetterAscendingStringComparer.IsFirstAboveSecond a b = some false ∧
      MainTestFinal.LastLetterAscendingStringComparer.IsFirstAboveSecond a b = some false := by
  unfold MainTestBest.LastLetterAscendingStringComparer.IsFirstAboveSecond
    MainTestFinal.LastLetterAscendingStringComparer.IsFirstAboveSecond
  rcases h with h | h <;> subst h <;> simp

theorem lastLetter_false_of_empty_witness :
    (([] : CppString) = [] ∨ ([97] : CppString) = []) ∧
      MainTestBest.LastLetterAscendingStringComparer.IsFirstAboveSecond [] [97] = some false ∧
      MainTestFinal.LastLetterAscendingStringComparer.IsFirstAboveSecond [] [97] = some false :=
  ⟨Or.inl rfl, lastLetter_false_of_empty [] [97] (Or.inl rfl)⟩

/-! ## Claims about `BubbleSort` on the empty list and on an unknown selector -/

/-- C15 (evaluation at the failing input): on the empty list `BubbleSort` has no defined result,
in `tester.cpp` and in `MainTestFinal.cpp`: `size() - 1` is `2 ^ 64 - 1`, both loops are
entered and `sortedList[0]` is read. -/
theorem BubbleSort_empty_undefined :
    sizeMinusOne 0 = 2 ^ 64 - 1 ∧
      Tester.swapIfNotAbove (fun _ _ => false)
        (Tester.CreateComparer .AlphabeticalAscending) [] 0 = none ∧
      Tester.BubbleSort (fun _ _ => false) []
        (Tester.CreateComparer .AlphabeticalAscending) = none ∧
      MainTestFinal.BubbleSort (fun _ _ => false) 4 []
        ESortType.AlphabeticalAscending.toInt = .ok none := by
  have h : Tester.outerLoop (fun _ _ => false)
      ⟨fun a b => some (AlphabeticalAscendingStringComparer.IsFirstAboveSecond a b)⟩
      (sizeMinusOne ([] : List CppString).length) 0 [] = none := by
    decide!
  refine ⟨by decide, by decide, by decide!, ?_⟩
  simp only [MainTestFinal.BubbleSort, MainTestFinal.CreateComparer, ESortType.toInt, if_true, h]

theorem MainTestFinal.CreateComparer_eq_none_iff (v : Int) :
    MainTestFinal.CreateComparer v = none ↔ v ≠ 0 ∧ v ≠ 1 ∧ v ≠ 2 := by
  unfold MainTestFinal.CreateComparer ESortType.toInt
  simp only []
  split
  · simp_all
  · split
    · simp_all
    · split
      · simp_all
      · simp_all

/-- C17: in `MainTestFinal.cpp`, whatever the list is, `BubbleSort` raises
`runtime_error("Invalid sort type")` exactly when the selector is none of the
three enumerators, which is exactly when `CreateComparer` returns null; for the
three enumerators `CreateComparer` returns the matching comparer. -/
theorem MainTestFinal.BubbleSort_invalid_sort_type
    (unspecified : CppString → CppString → Bool) (numThreads : Nat)
    (_listToSort : List CppString) (_sortType : Int) :
    (MainTestFinal.BubbleSort unspecified numThreads _listToSort _sortType =
        .error "Invalid sort type" ↔
      _sortType ≠ ESortType.AlphabeticalAscending.toInt ∧
        _sortType ≠ ESortType.AlphabeticalDescending.toInt ∧
        _sortType ≠ ESortType.LastLetterAscending.toInt) ∧
      (MainTestFinal.CreateComparer _sortType = none ↔
        MainTestFinal.BubbleSort unspecified numThreads _listToSort _sortType =
          .error "Invalid sort type") ∧
      (MainTestFinal.CreateComparer ESortType.AlphabeticalAscending.toInt).map
          (fun c => c.IsFirstAboveSecond) =
        some (fun a b => some (AlphabeticalAscendingStringComparer.IsFirstAboveSecond a b)) ∧
      (MainTestFinal.CreateComparer ESortType.AlphabeticalDescending.toInt).map
          (fun c => c.IsFirstAboveSecond) =
        some (fun a b => some (AlphabeticalDescendingStringComparer.IsFirstAboveSecond a b)) ∧
      (MainTestFinal.CreateComparer ESortType.LastLetterAscending.toInt).map
          (fun c => c.IsFirstAboveSecond) =
        some MainTestFinal.LastLetterAscendingStringComparer.IsFirstAboveSecond := by
  have hiff : MainTestFinal.BubbleSort unspecified numThreads _listToSort _sortType =
      .error "Invalid sort type" ↔ MainTestFinal.CreateComparer _sortType = none := by
    unfold MainTestFinal.BubbleSort
    split
    · rename_i h
      simp [h]
    · rename_i c h
      simp [h]
  refine ⟨?_, hiff.symm, ?_, ?_, ?_⟩
  · rw [hiff, MainTestFinal.CreateComparer_eq_none_iff]
    simp [ESortType.toInt]
  · simp [MainTestFinal.CreateComparer, ESortType.toInt]
  · simp [MainTestFinal.CreateComparer, ESortType.toInt]
  · simp [MainTestFinal.CreateComparer, ESortType.toInt]

/-! ## The number of threads that `mergeSort` creates -/

theorem threadsCreated_eq_zero (m : Nat) : ∀ (low high depth : Int),
    (high - low).toNat = m → (3 ≤ depth ∨ high - low ≤ 1000) →
    MainTestBest.threadsCreated low high depth = 0 := by
  induction m using Nat.strong_induction_on with
  | _ m ih =>
    intro low high depth hm hc
    rw [MainTestBest.threadsCreated]
    split
    · rename_i hlt
      have hdiv : Int.tdiv (high - low) 2 = (high - low) / 2 :=
        Int.tdiv_eq_ediv (by omega) (by decide)
      rw [if_neg (by
        simp only [MainTestBest.MAX_THREAD_DEPTH, MainTestBest.THREAD_THRESHOLD]
        omega)]
      rw [hdiv, ih _ (by omega) low (low + (high - low) / 2) (depth + 1) rfl (by omega),
        ih _ (by omega) (low + (high - low) / 2 + 1) high (depth + 1) rfl (by omega)]
    · rfl

theorem threadsCreated_le (m : Nat) : ∀ (low high depth : Int),
    (high - low).toNat = m → 0 ≤ depth →
    MainTestBest.threadsCreated low high depth ≤
      (if 3 ≤ depth then 0 else if depth = 2 then 2 else if depth = 1 then 6 else 14) := by
  induction m using Nat.strong_induction_on with
  | _ m ih =>
    intro low high depth hm hd
    by_cases h3 : 3 ≤ depth
    · rw [threadsCreated_eq_zero _ low high depth rfl (Or.inl h3)]
      exact Nat.zero_le _
    · rw [MainTestBest.threadsCreated]
      split
      · rename_i hlt
        have hdiv : Int.tdiv (high - low) 2 = (high - low) / 2 :=
          Int.tdiv_eq_ediv (by omega) (by decide)
        have hl := ih _ (by omega) low (low + (high - low) / 2) (depth + 1) rfl (by omega)
        have hr := ih _ (by omega) (low + (high - low) / 2 + 1) high (depth + 1) rfl (by omega)
        rw [hdiv]
        split
        · split_ifs at hl hr ⊢ <;> omega
        · split_ifs at hl hr ⊢ <;> omega
      · exact Nat.zero_le _

/-- C18: a top-level call `mergeSort(arr, 0, n - 1, sortType)` at depth `0` creates no thread
when `n ≤ 1001` and at most 14 threads for every `n`; no call at a depth of 3 or
more and no call on a range with `high - low ≤ 1000` creates a thread, itself or
below it. -/
theorem MainTestBest.threadsCreated_bound (n : Nat) :
    (n ≤ 1001 → MainTestBest.threadsCreated 0 ((n : Int) - 1) 0 = 0) ∧
      MainTestBest.threadsCreated 0 ((n : Int) - 1) 0 ≤ 14 ∧
      (∀ low high depth : Int, MainTestBest.MAX_THREAD_DEPTH ≤ depth →
        MainTestBest.threadsCreated low high depth = 0) ∧
      (∀ low high depth : Int, high - low ≤ MainTestBest.THREAD_THRESHOLD →
        MainTestBest.threadsCreated low high depth = 0) := by
  refine ⟨?_, ?_, ?_, ?_⟩
  · intro h
    exact threadsCreated_eq_zero _ 0 _ 0 rfl (Or.inr (by omega))
  · have := threadsCreated_le _ 0 ((n : Int) - 1) 0 rfl (le_refl _)
    simpa using this
  · intro low high depth h
    exact threadsCreated_eq_zero _ low high depth rfl (Or.inl h)
  · intro low high depth h
    exact threadsCreated_eq_zero _ low high depth rfl (Or.inr h)

theorem MainTestBest.threadsCreated_bound_witness :
    (5 ≤ 1001) ∧ MainTestBest.threadsCreated 0 (((5 : Nat) : Int) - 1) 0 = 0 ∧
      MainTestBest.threadsCreated 0 (((5 : Nat) : Int) - 1) 0 ≤ 14 :=
  ⟨by decide, (MainTestBest.threadsCreated_bound 5).1 (by decide),
    (MainTestBest.threadsCreated_bound 5).2.1⟩


/-! ## Reading lines from a stream -/

theorem takeWhile_line (x F : List CppChar) (hx : newline ∉ x) :
    (x ++ newline :: F).takeWhile (fun c => c ≠ newline) = x := by
  induction x with
  | nil => simp
  | cons a x ih =>
    have ha : a ≠ newline := fun h => hx (h ▸ List.mem_cons_self _ _)
    have hx2 : newline ∉ x := fun h => hx (List.mem_cons_of_mem _ h)
    rw [List.cons_append, List.takeWhile_cons_of_pos (by simpa using ha), ih hx2]

theorem getline_line (s : IfStream) (str x F : List CppChar) (he : s.eofbit = false)
    (hf : s.failbit = false) (hd : s.content.drop s.pos = x ++ newline :: F)
    (hx : newline ∉ x) :
    s.getline str = ({ s with pos := s.pos + x.length + 1 }, x) := by
  unfold IfStream.getline
  rw [if_neg (by simp [he, hf])]
  simp only [hd, takeWhile_line x F hx]
  rw [if_pos (by simp)]

theorem getline_end (s : IfStream) (str : List CppChar) (he : s.eofbit = false)
    (hf : s.failbit = false) (hd : s.content.drop s.pos = []) :
    (s.getline str).1.failbit = true := by
  unfold IfStream.getline
  rw [if_neg (by simp [he, hf])]
  simp [hd]

theorem drop_append_length (pre rest : List CppChar) : (pre ++ rest).drop pre.length = rest :=
  List.drop_left' rfl

theorem MainTestBest.ReadFile_loop_lines (l : List CppString) :
    ∀ (s : IfStream) (line : CppString) (acc : List CppString) (pre : List CppChar),
      s.eofbit = false → s.failbit = false → s.pos = pre.length →
      s.content = pre ++ (l.map (fun x => x ++ [newline])).flatten →
      (∀ x ∈ l, newline ∉ x) →
      MainTestBest.ReadFile.loop s line acc = acc ++ l := by
  induction l with
  | nil =>
    intro s line acc pre he hf hp hc _
    have hd : s.content.drop s.pos = [] := by
      rw [hc, hp]; simp
    rw [MainTestBest.ReadFile.loop, dif_pos (getline_end s line he hf hd)]
    simp
  | cons x l ih =>
    intro s line acc pre he hf hp hc hx
    have hd : s.content.drop s.pos = x ++ newline :: (l.map (fun x => x ++ [newline])).flatten := by
      rw [hc, hp]
      simp [drop_append_length]
    have hg := getline_line s line x _ he hf hd (hx x (List.mem_cons_self _ _))
    rw [MainTestBest.ReadFile.loop, dif_neg (by rw [hg]; simp [hf])]
    rw [hg]
    have := ih (IfStream.mk s.content (s.pos + x.length + 1) s.eofbit s.failbit) x
      (acc ++ [x]) (pre ++ x ++ [newline]) he hf (by simp [hp]; omega)
      (by simp [hc]) (fun y hy => hx y (List.mem_cons_of_mem _ hy))
    simpa using this

/-- C16: in `MainTestBest.cpp`, when the named file cannot be opened `ReadFile` returns
the empty list. -/
theorem MainTestBest.ReadFile_unopened : MainTestBest.ReadFile none = [] := by
  unfold MainTestBest.ReadFile
  rw [MainTestBest.ReadFile.loop, dif_pos]
  simp [IfStream.open, IfStream.getline]

/-- C20: in `MainTestBest.cpp`, for every list of strings none of which contains a newline
character, `ReadFile` applied to the content that `WriteAndPrintResults` writes for the
list returns the list. -/
theorem MainTestBest.ReadFile_WriteAndPrintResults (l : List CppString) (name : CppString)
    (h : ∀ x ∈ l, newline ∉ x) :
    MainTestBest.ReadFile (some (MainTestBest.WriteAndPrintResults l name).2) = l := by
  unfold MainTestBest.ReadFile MainTestBest.WriteAndPrintResults
  have := MainTestBest.ReadFile_loop_lines l
    (IfStream.open (some (l.map (fun s => s ++ [newline])).flatten)) [] [] [] rfl rfl rfl
    (by simp [IfStream.open]) h
  simpa using this

theorem MainTestBest.ReadFile_WriteAndPrintResults_witness :
    (∀ x ∈ ([cpp "b", cpp "", cpp "a c"] : List CppString), newline ∉ x) ∧
      MainTestBest.ReadFile (some (MainTestBest.WriteAndPrintResults
        [cpp "b", cpp "", cpp "a c"] (cpp "SingleAscending")).2) =
        [cpp "b", cpp "", cpp "a c"] :=
  ⟨by decide, MainTestBest.ReadFile_WriteAndPrintResults _ _ (by decide)⟩

theorem MainTestBest.ReadFile_WriteAndPrintResults_empty (name : CppString) :
    MainTestBest.ReadFile (some (MainTestBest.WriteAndPrintResults [] name).2) = [] :=
  MainTestBest.ReadFile_WriteAndPrintResults [] name (by simp)

/-! ## `ReadFile` of `tester.cpp` and the files that `DoMultiThreaded` writes -/

theorem Tester.readLine_end (content pre : List CppChar) (pos : Nat) (hp : pos = pre.length)
    (hc : content = pre) :
    (Tester.ReadFile.readLine (some content) pos).1.peek.2 = none := by
  have hd : content.drop pos = [] := by rw [hc, hp]; simp
  simp [Tester.ReadFile.readLine, IfStream.open, IfStream.seekg, IfStream.getline,
    IfStream.peek, hd]

theorem Tester.readLine_line (content pre x F : List CppChar) (pos : Nat)
    (hp : pos = pre.length) (hc : content = pre ++ (x ++ newline :: F)) (hx : newline ∉ x) :
    Tester.ReadFile.readLine (some content) pos =
      (⟨content, pos + x.length + 1, false, false⟩, x) := by
  unfold Tester.ReadFile.readLine
  rw [getline_line _ [] x F (by simp [IfStream.open, IfStream.seekg])
    (by simp [IfStream.open, IfStream.seekg])
    (by simp [IfStream.open, IfStream.seekg, hc, hp, drop_append_length]) hx]
  simp [IfStream.open, IfStream.seekg]

/-- What `ReadFile` of `tester.cpp` returns on a file of newline-terminated lines:
all the lines but the last one. -/
theorem Tester.ReadFile_loop_dropLast (l : List CppString) :
    ∀ (content pre : List CppChar) (pos : Nat) (acc : List CppString),
      pos = pre.length → content = pre ++ (l.map (fun x => x ++ [newline])).flatten →
      (∀ x ∈ l, newline ∉ x) →
      Tester.ReadFile.loop (some content) pos acc = acc ++ l.dropLast := by
  induction l with
  | nil =>
    intro content pre pos acc hp hc _
    have h := Tester.readLine_end content pre pos hp (by simpa using hc)
    rw [Tester.ReadFile.loop]
    split
    · simp
    · rename_i c hc2
      rw [h] at hc2
      cases hc2
  | cons x l ih =>
    intro content pre pos acc hp hc hx
    have hr := Tester.readLine_line content pre x (l.map (fun x => x ++ [newline])).flatten pos
      hp (by simpa using hc) (hx x (List.mem_cons_self _ _))
    rw [Tester.ReadFile.loop]
    cases l with
    | nil =>
      split
      · simp
      · rename_i c hc2
        rw [hr] at hc2
        have hlen : content.length = pos + x.length + 1 := by
          rw [hc, hp]; simp; omega
        have hnone : content[pos + x.length + 1]? = none :=
          List.getElem?_eq_none (by omega)
        simp [IfStream.peek, hnone] at hc2
    | cons y l =>
      have hpk : (Tester.ReadFile.readLine (some content) pos).1.peek =
          ((Tester.ReadFile.readLine (some content) pos).1,
            (y ++ newline :: (l.map (fun x => x ++ [newline])).flatten)[0]?) := by
        rw [hr]
        have hd : content.drop (pos + x.length + 1) =
            y ++ newline :: (l.map (fun x => x ++ [newline])).flatten := by
          have : content = (pre ++ x ++ [newline]) ++
              (y ++ newline :: (l.map (fun x => x ++ [newline])).flatten) := by
            rw [hc]; simp
          rw [this]
          exact List.drop_left' (by simp [hp]; omega)
        have hget : content[pos + x.length + 1]? =
            (y ++ newline :: (l.map (fun x => x ++ [newline])).flatten)[0]? := by
          rw [← hd, List.getElem?_drop]
        have hsome : ∃ c, (y ++ newline :: (l.map (fun x => x ++ [newline])).flatten)[0]? =
            some c := by
          cases y <;> simp
        obtain ⟨c, hcs⟩ := hsome
        simp only [IfStream.peek, Bool.or_self, Bool.false_eq_true, if_false, hget, hcs]
      split
      · rename_i hnone
        rw [hpk] at hnone
        cases y <;> simp at hnone
      · rw [hpk]
        simp only [IfStream.tellg]
        rw [hr]
        have := ih content (pre ++ x ++ [newline]) (pos + x.length + 1) (acc ++ [x])
          (by simp [hp]; omega) (by rw [hc]; simp)
          (fun z hz => hx z (List.mem_cons_of_mem _ hz))
        simpa using this

theorem Tester.ReadFile_lines (l : List CppString) (h : ∀ x ∈ l, newline ∉ x) :
    Tester.ReadFile (some (l.map (fun x => x ++ [newline])).flatten) = l.dropLast := by
  have := Tester.ReadFile_loop_dropLast l (l.map (fun x => x ++ [newline])).flatten [] 0 [] rfl
    (by simp) h
  simpa [Tester.ReadFile] using this

/-- C14 (evaluation at the failing input): on the file content `a\n` (one newline-terminated
line) `ReadFile` of `tester.cpp` returns the empty list, and on `a\nbc\n` (two lines) it
returns the line `a` alone: the last line is not stored. -/
theorem Tester.ReadFile_drops_last_line :
    Tester.ReadFile (some (cpp "a\n")) = [] ∧
      Tester.ReadFile (some (cpp "a\nbc\n")) = [cpp "a"] := by
  decide!

/-- C19 (evaluation at the failing input): for one input file with the lines `b`, `a`, `x`, the call
`DoMultiThreaded(files, ESortType::AlphabeticalDescending, "MultiDescending")` of
`tester.cpp` writes three files, and none of them has the name `MultiDescending.txt`. -/
theorem Tester.DoMultiThreaded_writes_three_files :
    Tester.DoMultiThreaded (fun _ _ => false) (fun _ => some (cpp "b\na\nx\n")) [cpp "f"]
        .AlphabeticalDescending (cpp "MultiDescending") =
      some [(cpp "MultiDescendingAscending.txt.txt", cpp "b\na\n"),
        (cpp "MultiDescendingDescending.txt.txt", cpp "b\na\n"),
        (cpp "MultiDescendingLastLetter.txt.txt", cpp "a\nb\n")] ∧
      cpp "MultiDescending" ++ cpp ".txt" ∉
        [cpp "MultiDescendingAscending.txt.txt", cpp "MultiDescendingDescending.txt.txt",
          cpp "MultiDescendingLastLetter.txt.txt"] := by
  decide!

/-- Two input files with lines: both worker threads of `DoMultiThreaded` in `tester.cpp`
append to the master list, and the call has no defined result. -/
theorem Tester.DoMultiThreaded_two_files_unordered :
    Tester.DoMultiThreaded.appendingThreads (fun _ => some (cpp "b\na\nx\n"))
        [cpp "f", cpp "g"] = 2 ∧
      Tester.DoMultiThreaded (fun _ _ => false) (fun _ => some (cpp "b\na\nx\n"))
        [cpp "f", cpp "g"] .AlphabeticalDescending (cpp "MultiDescending") = none := by
  decide!

/-! ## The ascending comparer as an order -/

theorem charValue_injective {x y : CppChar} (h : charValue x = charValue y) : x = y := by
  unfold charValue at h
  apply Fin.ext
  have hx := x.isLt
  have hy := y.isLt
  split at h <;> split at h <;> omega

theorem ascending_nil_right (a : CppString) :
    AlphabeticalAscendingStringComparer.IsFirstAboveSecond a [] = true := by
  cases a <;> simp [AlphabeticalAscendingStringComparer.IsFirstAboveSecond]

theorem ascending_cons_cons (x y : CppChar) (as bs : CppString) :
    AlphabeticalAscendingStringComparer.IsFirstAboveSecond (x :: as) (y :: bs) =
      if charValue x < charValue y then true
      else if charValue x > charValue y then false
      else AlphabeticalAscendingStringComparer.IsFirstAboveSecond as bs := by
  simp [AlphabeticalAscendingStringComparer.IsFirstAboveSecond]

theorem ascending_nil_cons (y : CppChar) (bs : CppString) :
    AlphabeticalAscendingStringComparer.IsFirstAboveSecond [] (y :: bs) = false := by
  simp [AlphabeticalAscendingStringComparer.IsFirstAboveSecond]

theorem ascending_refl (a : CppString) :
    AlphabeticalAscendingStringComparer.IsFirstAboveSecond a a = true := by
  induction a with
  | nil => exact ascending_nil_right []
  | cons x as ih => rw [ascending_cons_cons]; simp [ih]

theorem ascending_total (a : CppString) : ∀ b : CppString,
    AlphabeticalAscendingStringComparer.IsFirstAboveSecond a b = false →
    AlphabeticalAscendingStringComparer.IsFirstAboveSecond b a = true := by
  induction a with
  | nil => intro b _; exact ascending_nil_right b
  | cons x as ih =>
    intro b h
    cases b with
    | nil => rw [ascending_nil_right] at h; cases h
    | cons y bs =>
      rw [ascending_cons_cons] at h ⊢
      split at h
      · cases h
      · split at h
        · rw [if_pos (by omega)]
        · rw [if_neg (by omega), if_neg (by omega)]
          exact ih bs h

theorem ascending_antisymm (a : CppString) : ∀ b : CppString,
    AlphabeticalAscendingStringComparer.IsFirstAboveSecond a b = true →
    AlphabeticalAscendingStringComparer.IsFirstAboveSecond b a = true → a = b := by
  induction a with
  | nil =>
    intro b h _
    cases b with
    | nil => rfl
    | cons y bs => rw [ascending_nil_cons] at h; cases h
  | cons x as ih =>
    intro b h1 h2
    cases b with
    | nil => rw [ascending_nil_cons] at h2; cases h2
    | cons y bs =>
      rw [ascending_cons_cons] at h1 h2
      split at h1
      · rw [if_neg (by omega), if_pos (by omega)] at h2
        cases h2
      · split at h1
        · cases h1
        · rw [if_neg (by omega), if_neg (by omega)] at h2
          have hxy : x = y := charValue_injective (by omega)
          rw [hxy, ih bs h1 h2]

theorem ascending_trans (a : CppString) : ∀ b c : CppString,
    AlphabeticalAscendingStringComparer.IsFirstAboveSecond a b = true →
    AlphabeticalAscendingStringComparer.IsFirstAboveSecond b c = true →
    AlphabeticalAscendingStringComparer.IsFirstAboveSecond a c = true := by
  induction a with
  | nil =>
    intro b c h1 h2
    cases b with
    | nil => exact h2
    | cons y bs => rw [ascending_nil_cons] at h1; cases h1
  | cons x as ih =>
    intro b c h1 h2
    cases c with
    | nil => exact ascending_nil_right _
    | cons z cs =>
      cases b with
      | nil => rw [ascending_nil_cons] at h2; cases h2
      | cons y bs =>
        rw [ascending_cons_cons] at h1 h2 ⊢
        split at h1
        · split at h2
          · rw [if_pos (by omega)]
          · split at h2
            · cases h2
            · rw [if_pos (by omega)]
        · split at h1
          · cases h1
          · split at h2
            · rw [if_pos (by omega)]
            · split at h2
              · cases h2
              · rw [if_neg (by omega), if_neg (by omega)]
                exact ih bs cs h1 h2

/-- C25: the relation `R(a, b)`, "the ascending comparer puts `a` above `b`", is a
total order on strings: it is reflexive, any two strings are related one way or
the other, two strings related both ways are equal, and it is transitive. -/
theorem AlphabeticalAscending_total_order :
    (∀ a : CppString, AlphabeticalAscendingStringComparer.IsFirstAboveSecond a a = true) ∧
      (∀ a b : CppString, AlphabeticalAscendingStringComparer.IsFirstAboveSecond a b = true ∨
        AlphabeticalAscendingStringComparer.IsFirstAboveSecond b a = true) ∧
      (∀ a b : CppString, AlphabeticalAscendingStringComparer.IsFirstAboveSecond a b = true →
        AlphabeticalAscendingStringComparer.IsFirstAboveSecond b a = true → a = b) ∧
      (∀ a b c : CppString, AlphabeticalAscendingStringComparer.IsFirstAboveSecond a b = true →
        AlphabeticalAscendingStringComparer.IsFirstAboveSecond b c = true →
        AlphabeticalAscendingStringComparer.IsFirstAboveSecond a c = true) := by
  refine ⟨ascending_refl, ?_, ascending_antisymm, ascending_trans⟩
  intro a b
  cases h : AlphabeticalAscendingStringComparer.IsFirstAboveSecond a b
  · exact Or.inr (ascending_total a b h)
  · exact Or.inl rfl

theorem AlphabeticalAscending_total_order_witness :
    AlphabeticalAscendingStringComparer.IsFirstAboveSecond (cpp "b") (cpp "ab") = false ∧
      AlphabeticalAscendingStringComparer.IsFirstAboveSecond (cpp "ab") (cpp "b") = true ∧
      AlphabeticalAscendingStringComparer.IsFirstAboveSecond (cpp "abc") (cpp "ab") = true ∧
      AlphabeticalAscendingStringComparer.IsFirstAboveSecond (cpp "abc") (cpp "b") = true :=
  ⟨by decide, by decide, by decide,
    AlphabeticalAscending_total_order.2.2.2 (cpp "abc") (cpp "ab") (cpp "b") (by decide)
      (by decide)⟩

/-! ## Order and frame of `mergeSort` in `MainTestBest.cpp` -/

theorem mergeRuns_mem_iff (f : CppString → CppString → Bool) (l r : List CppString)
    (z : CppString) : z ∈ mergeRuns f l r ↔ z ∈ l ∨ z ∈ r := by
  rw [(mergeRuns_perm f l r).mem_iff, List.mem_append]

theorem mergeRuns_pairwise {S : CppString → CppString → Prop}
    {f : CppString → CppString → Bool} (h1 : ∀ a b, f a b = false → S a b)
    (h2 : ∀ a b, f a b = true → S b a) (h3 : ∀ a b c, S a b → S b c → S a c)
    (l : List CppString) : ∀ r : List CppString, List.Pairwise S l → List.Pairwise S r →
    List.Pairwise S (mergeRuns f l r) := by
  induction l with
  | nil => intro r _ hr; simpa [mergeRuns] using hr
  | cons x l ihl =>
    intro r
    induction r with
    | nil => intro hl _; simpa [mergeRuns] using hl
    | cons y r ihr =>
      intro hl hr
      have hl2 := List.pairwise_cons.mp hl
      have hr2 := List.pairwise_cons.mp hr
      unfold mergeRuns
      by_cases hf : f x y = true
      · simp only [hf, Bool.not_true, Bool.false_eq_true, if_false]
        rw [List.pairwise_cons]
        refine ⟨?_, ihr hl hr2.2⟩
        intro z hz
        rw [mergeRuns_mem_iff] at hz
        rcases hz with hz | hz
        · rcases List.mem_cons.mp hz with rfl | hz
          · exact h2 _ _ hf
          · exact h3 _ _ _ (h2 _ _ hf) (hl2.1 z hz)
        · exact hr2.1 z hz
      · simp only [Bool.not_eq_true] at hf
        simp only [hf, Bool.not_false, if_true]
        rw [List.pairwise_cons]
        refine ⟨?_, ihl (y :: r) hl2.2 hr⟩
        intro z hz
        rw [mergeRuns_mem_iff] at hz
        rcases hz with hz | hz
        · exact hl2.1 z hz
        · rcases List.mem_cons.mp hz with rfl | hz
          · exact h1 _ _ hf
          · exact h3 _ _ _ (h1 _ _ hf) (hr2.1 z hz)

theorem mergeSortRuns_pairwise {S : CppString → CppString → Prop}
    {f : CppString → CppString → Bool} (h1 : ∀ a b, f a b = false → S a b)
    (h2 : ∀ a b, f a b = true → S b a) (h3 : ∀ a b c, S a b → S b c → S a c) (n : Nat) :
    ∀ seg : List CppString, seg.length = n → List.Pairwise S (mergeSortRuns f seg) := by
  induction n using Nat.strong_induction_on with
  | _ n ih =>
    intro seg hn
    rw [mergeSortRuns]
    split
    · rename_i h
      apply mergeRuns_pairwise h1 h2 h3
      · exact ih _ (by rw [List.length_take]; omega) _ rfl
      · exact ih _ (by rw [List.length_drop]; omega) _ rfl
    · rename_i h
      match seg, h with
      | [], _ => exact List.Pairwise.nil
      | [a], _ => exact List.pairwise_singleton _ _
      | _ :: _ :: _, h => simp at h

theorem MainTestBest.descending_answer_lt (u : CppString → CppString → Bool) (a b : CppString) :
    (MainTestBest.CreateComparer .AlphabeticalDescending).answer u a b = decide (b < a) := by
  simp only [IStringComparer.answer, MainTestBest.CreateComparer, Option.getD_some,
    AlphabeticalDescendingStringComparer.IsFirstAboveSecond]
  exact decide_eq_decide.mpr (stringCompare_pos_iff a b)

/-- C22: for every list `arr` of length `n` (and every depth),
`mergeSort(arr, 0, n - 1, ESortType::AlphabeticalDescending)` leaves the list in
non-decreasing lexicographic order: every element is less than or equal to its
successor. -/
theorem MainTestBest.mergeSort_descending_nondecreasing
    (unspecified : CppString → CppString → Bool) (arr : List CppString) (depth : Int) :
    ∃ r, MainTestBest.mergeSort unspecified arr 0 ((arr.length : Int) - 1)
        .AlphabeticalDescending depth = some r ∧
      List.Chain' (fun a b => a ≤ b) r := by
  have h := mergeSort_spec unspecified .AlphabeticalDescending arr.length arr [] [] arr 0
    ((arr.length : Int) - 1) depth rfl (by simp) (by simp) (by simp)
  refine ⟨_, h, ?_⟩
  have hg : (MainTestBest.CreateComparer .AlphabeticalDescending).answer unspecified =
      fun a b => decide (b < a) := by
    funext a b
    exact MainTestBest.descending_answer_lt unspecified a b
  rw [hg]
  simp only [List.nil_append, List.append_nil]
  apply List.Pairwise.chain'
  apply mergeSortRuns_pairwise _ _ _ arr.length arr rfl
  · intro a b hab
    exact not_lt.mp (of_decide_eq_false hab)
  · intro a b hab
    exact le_of_lt (of_decide_eq_true hab)
  · intro a b c hab hbc
    exact le_trans hab hbc

/-- C24: for all indices `low ≤ high` below the length of `arr`, every sort type and
every depth, `mergeSort(arr, low, high, sortType, depth)` returns a list of the same
length in which every element at an index outside `[low, high]` is unchanged and
the elements at the indices `[low, high]` are a permutation of those that were
there. -/
theorem MainTestBest.mergeSort_frame (unspecified : CppString → CppString → Bool)
    (arr : List CppString) (low high : Nat) (sortType : ESortType) (depth : Int)
    (h1 : low ≤ high) (h2 : high < arr.length) :
    ∃ r, MainTestBest.mergeSort unspecified arr (low : Int) (high : Int) sortType depth =
        some r ∧ r.length = arr.length ∧
      (∀ i, (i < low ∨ high < i) → r[i]? = arr[i]?) ∧
      ((r.drop low).take (high + 1 - low)).Perm ((arr.drop low).take (high + 1 - low)) := by
  have harr : arr = arr.take low ++ (arr.drop low).take (high + 1 - low) ++
      arr.drop (high + 1) := by
    have e : arr.drop (high + 1) = (arr.drop low).drop (high + 1 - low) := by
      rw [List.drop_drop]; congr 1; omega
    rw [e, List.append_assoc, List.take_append_drop, List.take_append_drop]
  have hpre : (arr.take low).length = low := by rw [List.length_take]; omega
  have hseg : ((arr.drop low).take (high + 1 - low)).length = high + 1 - low := by
    rw [List.length_take, List.length_drop]; omega
  have h := mergeSort_spec unspecified sortType _ ((arr.drop low).take (high + 1 - low))
    (arr.take low) (arr.drop (high + 1)) arr (low : Int) (high : Int) depth rfl harr
    (by rw [hpre]) (by rw [hpre, hseg]; omega)
  have hp := mergeSortRuns_perm ((MainTestBest.CreateComparer sortType).answer unspecified) _
    ((arr.drop low).take (high + 1 - low)) rfl
  have hlen := hp.length_eq
  rw [hseg] at hlen
  refine ⟨_, h, ?_, ?_, ?_⟩
  · conv_rhs => rw [harr]
    simp only [List.length_append, hlen, hseg]
  · intro i hi
    conv_rhs => rw [harr]
    rcases hi with hi | hi
    · rw [List.append_assoc, List.append_assoc, List.getElem?_append_left (by omega),
        List.getElem?_append_left (by omega)]
    · rw [List.getElem?_append_right (by simp only [List.length_append, hpre, hlen]; omega),
        List.getElem?_append_right (by simp only [List.length_append, hpre, hseg]; omega)]
      simp only [List.length_append, hpre, hlen, hseg]
  · rw [List.append_assoc, List.drop_left' hpre, List.take_left' hlen]
    exact hp

theorem MainTestBest.mergeSort_frame_witness :
    (1 ≤ 2) ∧ 2 < ([cpp "d", cpp "c", cpp "b", cpp "a"] : List CppString).length ∧
      ∃ r, MainTestBest.mergeSort (fun _ _ => false) [cpp "d", cpp "c", cpp "b", cpp "a"]
          ((1 : Nat) : Int) ((2 : Nat) : Int) .AlphabeticalDescending 0 = some r ∧
        r.length = ([cpp "d", cpp "c", cpp "b", cpp "a"] : List CppString).length ∧
        (∀ i, (i < 1 ∨ 2 < i) →
          r[i]? = ([cpp "d", cpp "c", cpp "b", cpp "a"] : List CppString)[i]?) ∧
        ((r.drop 1).take (2 + 1 - 1)).Perm
          ((([cpp "d", cpp "c", cpp "b", cpp "a"] : List CppString).drop 1).take (2 + 1 - 1)) :=
  ⟨by decide, by decide,
    MainTestBest.mergeSort_frame _ _ 1 2 _ _ (by decide) (by decide)⟩

/-- C26: `mergeSort` called with `low ≥ high` returns the list unchanged, whatever the
list and the indices are, so it reads no element; this covers the call on the
empty master list, where `size() - 1` reaches the `int` parameter as `-1`, and the
call on a list of one element. -/
theorem MainTestBest.mergeSort_of_ge (unspecified : CppString → CppString → Bool)
    (arr : List CppString) (low high : Int) (sortType : ESortType) (depth : Int)
    (h : low ≥ high) :
    MainTestBest.mergeSort unspecified arr low high sortType depth = some arr ∧
      intOfSize (sizeMinusOne ([] : List CppString).length) = -1 ∧
      MainTestBest.sortMaster unspecified [] sortType = some [] ∧
      ∀ x : CppString, MainTestBest.sortMaster unspecified [x] sortType = some [x] := by
  have hge : ∀ (a : List CppString) (l h : Int), l ≥ h →
      MainTestBest.mergeSort unspecified a l h sortType depth = some a := by
    intro a l h hlh
    rw [MainTestBest.mergeSort, if_neg (by omega)]
  have hm1 : intOfSize (sizeMinusOne ([] : List CppString).length) = -1 := by decide
  have h0 : intOfSize (sizeMinusOne ([cpp "a"] : List CppString).length) = 0 := by decide
  refine ⟨hge arr low high h, hm1, ?_, ?_⟩
  · unfold MainTestBest.sortMaster
    rw [hm1]
    rw [MainTestBest.mergeSort, if_neg (by omega)]
  · intro x
    unfold MainTestBest.sortMaster
    have : intOfSize (sizeMinusOne ([x] : List CppString).length) = 0 := h0
    rw [this]
    rw [MainTestBest.mergeSort, if_neg (by omega)]

theorem MainTestBest.mergeSort_of_ge_witness :
    ((0 : Int) ≥ -1) ∧
      MainTestBest.mergeSort (fun _ _ => false) [] 0 (-1) .LastLetterAscending 0 = some [] :=
  ⟨by decide, (MainTestBest.mergeSort_of_ge _ [] 0 (-1) _ 0 (by decide)).1⟩

/-! ## The threads of `BubbleSort` in `MainTestFinal.cpp` -/

theorem swapIfNotAbove_some (u : CppString → CppString → Bool) (c : IStringComparer)
    (l : List CppString) (j : Nat) (h : j + 1 < l.length) :
    ∃ r, Tester.swapIfNotAbove u c l j = some r ∧ r.length = l.length := by
  unfold Tester.swapIfNotAbove
  rw [List.getElem?_eq_getElem (by omega), List.getElem?_eq_getElem h]
  simp only []
  split
  · exact ⟨_, rfl, by simp⟩
  · exact ⟨_, rfl, rfl⟩

theorem threadInner_some (u : CppString → CppString → Bool) (c : IStringComparer)
    (end_ j : Int) (n : Nat) : ∀ (k : Int) (l : List CppString),
    (end_ - j - 1 - k).toNat = n → 0 ≤ k → end_ - j ≤ (l.length : Int) →
    ∃ r, MainTestFinal.threadInner u c end_ j k l = some r ∧ r.length = l.length := by
  induction n using Nat.strong_induction_on with
  | _ n ih =>
    intro k l hn hk hb
    rw [MainTestFinal.threadInner]
    split
    · rename_i hlt
      obtain ⟨r1, hr1, hl1⟩ := swapIfNotAbove_some u c l k.toNat (by omega)
      have hs : MainTestFinal.swapAt u c l k = some r1 := by
        unfold MainTestFinal.swapAt
        rw [if_pos hk, hr1]
      rw [hs]
      simp only []
      obtain ⟨r2, hr2, hl2⟩ := ih _ (by omega) (k + 1) r1 rfl (by omega) (by omega)
      exact ⟨r2, hr2, by omega⟩
    · exact ⟨l, rfl, rfl⟩

theorem threadOuter_some (u : CppString → CppString → Bool) (c : IStringComparer)
    (start end_ : Int) (hs : 0 ≤ start) (n : Nat) : ∀ (j : Int) (l : List CppString),
    (end_ - 1 - j).toNat = n → start ≤ j → end_ ≤ (l.length : Int) →
    ∃ r, MainTestFinal.threadOuter u c start end_ j l = some r ∧ r.length = l.length := by
  induction n using Nat.strong_induction_on with
  | _ n ih =>
    intro j l hn hj hb
    rw [MainTestFinal.threadOuter]
    split
    · rename_i hlt
      obtain ⟨r1, hr1, hl1⟩ := threadInner_some u c end_ j _ start l rfl hs (by omega)
      rw [hr1]
      simp only []
      obtain ⟨r2, hr2, hl2⟩ := ih _ (by omega) (j + 1) r1 rfl (by omega) (by omega)
      exact ⟨r2, hr2, by omega⟩
    · exact ⟨l, rfl, rfl⟩

theorem threadsLoop_some (u : CppString → CppString → Bool) (c : IStringComparer)
    (numThreads sublistSize size : Int) (hsub : 0 ≤ sublistSize)
    (hsize : numThreads * sublistSize ≤ size) (n : Nat) : ∀ (i : Int) (l : List CppString),
    (numThreads - i).toNat = n → 0 ≤ i → size = (l.length : Int) →
    ∃ r, MainTestFinal.threadsLoop u c numThreads sublistSize size i l = some r ∧
      r.length = l.length := by
  induction n using Nat.strong_induction_on with
  | _ n ih =>
    intro i l hn hi hl
    rw [MainTestFinal.threadsLoop]
    split
    · rename_i hlt
      have hstart : 0 ≤ i * sublistSize := Int.mul_nonneg hi hsub
      have hend : (if i = numThreads - 1 then size else (i + 1) * sublistSize) ≤
          (l.length : Int) := by
        split
        · omega
        · have : (i + 1) * sublistSize ≤ numThreads * sublistSize :=
            Int.mul_le_mul_of_nonneg_right (by omega) hsub
          omega
      simp only []
      obtain ⟨r1, hr1, hl1⟩ := threadOuter_some u c (i * sublistSize)
        (if i = numThreads - 1 then size else (i + 1) * sublistSize) hstart _
        (i * sublistSize) l rfl (le_refl _) hend
      rw [hr1]
      simp only []
      obtain ⟨r2, hr2, hl2⟩ := ih _ (by omega) (i + 1) r1 rfl (by omega) (by omega)
      exact ⟨r2, hr2, by omega⟩
    · exact ⟨l, rfl, rfl⟩

/-- C23: in `MainTestFinal.cpp`, for every non-empty list, each of the two alphabetical sort
types and every thread count `numThreads ≥ 1`, `BubbleSort` returns the result of its
first double loop, which is the list that `BubbleSort` of `tester.cpp` returns with the
matching comparer. -/
theorem MainTestFinal.BubbleSort_eq_tester (unspecified : CppString → CppString → Bool)
    (numThreads : Nat) (l : List CppString) (sortType : ESortType) (hn : 1 ≤ numThreads)
    (hl : l ≠ [])
    (ht : sortType = .AlphabeticalAscending ∨ sortType = .AlphabeticalDescending) :
    ∃ r, Tester.BubbleSort unspecified l (Tester.CreateComparer sortType) = some r ∧
      Tester.outerLoop unspecified (Tester.CreateComparer sortType)
        (sizeMinusOne l.length) 0 l = some r ∧
      MainTestFinal.BubbleSort unspecified numThreads l sortType.toInt = .ok (some r) := by
  have hb := BubbleSort_eq_iterate unspecified (Tester.CreateComparer sortType) l hl
  have ho : Tester.outerLoop unspecified (Tester.CreateComparer sortType)
      (sizeMinusOne l.length) 0 l =
      some ((bubblePass ((Tester.CreateComparer sortType).answer unspecified))^[l.length - 1] l) :=
    hb
  have hc : MainTestFinal.CreateComparer sortType.toInt = some (Tester.CreateComparer sortType) := by
    rcases ht with rfl | rfl <;>
      simp [MainTestFinal.CreateComparer, Tester.CreateComparer, ESortType.toInt]
  have hdiv : ((numThreads : Int)) * ((l.length / numThreads : Nat) : Int) ≤ (l.length : Int) := by
    have := Nat.mul_div_le l.length numThreads
    exact_mod_cast this
  obtain ⟨r2, hr2, _⟩ := threadsLoop_some unspecified (Tester.CreateComparer sortType)
    (numThreads : Int) ((l.length / numThreads : Nat) : Int) (l.length : Int)
    (by positivity) hdiv _ 0 l rfl (le_refl _) rfl
  refine ⟨_, hb, ho, ?_⟩
  unfold MainTestFinal.BubbleSort
  rw [hc]
  simp only [ho, hr2]
  rw [if_neg (by omega)]

theorem MainTestFinal.BubbleSort_eq_tester_witness :
    (1 ≤ 2) ∧ ([cpp "b", cpp "c", cpp "a"] : List CppString) ≠ [] ∧
      ∃ r, Tester.BubbleSort (fun _ _ => false) [cpp "b", cpp "c", cpp "a"]
          (Tester.CreateComparer .AlphabeticalAscending) = some r ∧
        Tester.outerLoop (fun _ _ => false) (Tester.CreateComparer .AlphabeticalAscending)
          (sizeMinusOne ([cpp "b", cpp "c", cpp "a"] : List CppString).length) 0
          [cpp "b", cpp "c", cpp "a"] = some r ∧
        MainTestFinal.BubbleSort (fun _ _ => false) 2 [cpp "b", cpp "c", cpp "a"]
          ESortType.AlphabeticalAscending.toInt = .ok (some r) :=
  ⟨by decide, by decide,
    MainTestFinal.BubbleSort_eq_tester _ 2 _ .AlphabeticalAscending (by decide) (by decide)
      (Or.inl rfl)⟩

/-! ## Sorting after each append and sorting once, in `tester.cpp` -/

theorem pairwise_perm_eq {S : CppString → CppString → Prop} (l1 : List CppString) :
    ∀ l2 : List CppString, (∀ a ∈ l1, ∀ b ∈ l1, S a b → S b a → a = b) → l1.Perm l2 →
    List.Pairwise S l1 → List.Pairwise S l2 → l1 = l2 := by
  induction l1 with
  | nil => intro l2 _ hp _ _; exact hp.nil_eq
  | cons a t1 ih =>
    intro l2 hanti hp h1 h2
    cases l2 with
    | nil => exact absurd hp.symm.nil_eq (by simp)
    | cons b t2 =>
      have h1c := List.pairwise_cons.mp h1
      have h2c := List.pairwise_cons.mp h2
      have hb : b ∈ a :: t1 := hp.mem_iff.mpr (List.mem_cons_self _ _)
      have ha : a ∈ b :: t2 := hp.mem_iff.mp (List.mem_cons_self _ _)
      have hab : a = b := by
        rcases List.mem_cons.mp hb with hba | hbt
        · exact hba.symm
        · rcases List.mem_cons.mp ha with hab | hat
          · exact hab
          · exact hanti a (List.mem_cons_self _ _) b hb (h1c.1 b hbt) (h2c.1 a hat)
      subst hab
      rw [ih t2 (fun x hx y hy => hanti x (List.mem_cons_of_mem _ hx) y
        (List.mem_cons_of_mem _ hy)) (List.Perm.cons_inv hp) h1c.2 h2c.2]

theorem BubbleSort_append_of_order {S : CppString → CppString → Prop}
    {g : CppString → CppString → Bool} (u : CppString → CppString → Bool)
    (c : IStringComparer) (A B : List CppString) (hA : A ≠ [])
    (hagree : ∀ a ∈ A ++ B, ∀ b ∈ A ++ B, c.answer u a b = g a b)
    (h1 : ∀ a b, g a b = true → S a b) (h2 : ∀ a b, g a b = false → S b a)
    (h3 : ∀ a b c, S a b → S b c → S a c)
    (hanti : ∀ a ∈ A ++ B, ∀ b ∈ A ++ B, S a b → S b a → a = b) :
    ∃ r1 r, Tester.BubbleSort u A c = some r1 ∧ Tester.BubbleSort u (r1 ++ B) c = some r ∧
      Tester.BubbleSort u (A ++ B) c = some r := by
  have hr1 := iterate_bubblePass_perm (c.answer u) (A.length - 1) A
  have hne1 : (bubblePass (c.answer u))^[A.length - 1] A ++ B ≠ [] := by
    intro h
    have hlen := congrArg List.length h
    rw [List.length_append, hr1.length_eq, List.length_nil] at hlen
    have hpos := List.length_pos.mpr hA
    omega
  have hne2 : A ++ B ≠ [] := by
    intro h
    exact hA (List.append_eq_nil.mp h).1
  have hperm : ((bubblePass (c.answer u))^[A.length - 1] A ++ B).Perm (A ++ B) :=
    hr1.append_right B
  refine ⟨_, _, BubbleSort_eq_iterate u c A hA, BubbleSort_eq_iterate u c _ hne1, ?_⟩
  rw [BubbleSort_eq_iterate u c _ hne2]
  congr 1
  rw [iterate_bubblePass_congr (g := g) _ (A ++ B) hagree,
    iterate_bubblePass_congr (g := g) _ _ (fun a ha b hb =>
      hagree a (hperm.mem_iff.mp ha) b (hperm.mem_iff.mp hb))]
  have hX := iterate_bubblePass_perm g
    (((bubblePass (c.answer u))^[A.length - 1] A ++ B).length - 1)
    ((bubblePass (c.answer u))^[A.length - 1] A ++ B)
  have hY := iterate_bubblePass_perm g ((A ++ B).length - 1) (A ++ B)
  refine (pairwise_perm_eq _ _ ?_ (hY.trans (hperm.symm.trans hX.symm))
    (iterate_bubblePass_pairwise h1 h2 h3 _) (iterate_bubblePass_pairwise h1 h2 h3 _))
  intro a ha b hb
  exact hanti a (hY.mem_iff.mp ha) b (hY.mem_iff.mp hb)

theorem ascending_answer (u : CppString → CppString → Bool) (a b : CppString) :
    (Tester.CreateComparer .AlphabeticalAscending).answer u a b =
      AlphabeticalAscendingStringComparer.IsFirstAboveSecond a b := by
  simp [IStringComparer.answer, Tester.CreateComparer]

theorem lastKey_eq_imp {a b : CppString} (ha : a ≠ []) (hb : b ≠ [])
    (h : lastKey a = lastKey b) : a.getLast? = b.getLast? := by
  obtain ⟨x, hx⟩ := Option.isSome_iff_exists.mp (List.getLast?_isSome.mpr ha)
  obtain ⟨y, hy⟩ := Option.isSome_iff_exists.mp (List.getLast?_isSome.mpr hb)
  simp only [lastKey, hx, hy] at h
  rw [hx, hy, charValue_injective h]

/-- One run of the inner loop over a list followed by `t`: the run over the first part ends
with an element `c` of greatest key at the counter, and goes on with `c` into `t`. -/
theorem bubble_append_split (key : CppString → Int) (s : List CppString) :
    ∀ x, ∃ init c, bubble (fun a b => decide (key a < key b)) x s = init ++ [c] ∧
      (∀ t, bubble (fun a b => decide (key a < key b)) x (s ++ t) =
        init ++ bubble (fun a b => decide (key a < key b)) c t) ∧
      c ∈ x :: s ∧ ∀ z ∈ x :: s, key z ≤ key c := by
  induction s with
  | nil =>
    intro x
    exact ⟨[], x, rfl, fun t => rfl, List.mem_cons_self _ _, by simp⟩
  | cons y s ih =>
    intro x
    by_cases h : key x < key y
    · obtain ⟨init, c, he, ht, hc, hmax⟩ := ih y
      refine ⟨x :: init, c, ?_, ?_, List.mem_cons_of_mem _ hc, ?_⟩
      · simp [bubble, h, he]
      · intro t
        simp [bubble, h, ht]
      · intro z hz
        rcases List.mem_cons.mp hz with rfl | hz
        · exact le_trans (le_of_lt h) (hmax y (List.mem_cons_self _ _))
        · exact hmax z hz
    · obtain ⟨init, c, he, ht, hc, hmax⟩ := ih x
      refine ⟨y :: init, c, ?_, ?_, ?_, ?_⟩
      · simp [bubble, h, he]
      · intro t
        simp [bubble, h, ht]
      · rcases List.mem_cons.mp hc with rfl | hc
        · exact List.mem_cons_self _ _
        · exact List.mem_cons_of_mem _ (List.mem_cons_of_mem _ hc)
      · intro z hz
        rcases List.mem_cons.mp hz with rfl | hz
        · exact hmax z (List.mem_cons_self _ _)
        · rcases List.mem_cons.mp hz with rfl | hz
          · exact le_trans (not_lt.mp h) (hmax x (List.mem_cons_self _ _))
          · exact hmax z (List.mem_cons_of_mem _ hz)

/-- The passes over `A ++ B`, one fewer than `A` has elements, do not depend on the order
of `A` when equal keys occur in `A` only on equal strings. -/
theorem iterate_bubblePass_append_perm (key : CppString → Int) (m : Nat) :
    ∀ A A2 B : List CppString, A.length = m + 1 → A.Perm A2 →
      (∀ a ∈ A, ∀ b ∈ A, key a = key b → a = b) →
      (bubblePass (fun a b => decide (key a < key b)))^[m] (A ++ B) =
        (bubblePass (fun a b => decide (key a < key b)))^[m] (A2 ++ B) := by
  induction m with
  | zero =>
    intro A A2 B hl hp _
    match A, hl with
    | [a], _ =>
      rw [List.singleton_perm] at hp
      rw [hp]
  | succ m ih =>
    intro A A2 B hl hp htie
    have hl2 : A2.length = m + 1 + 1 := by rw [← hp.length_eq]; exact hl
    cases A with
    | nil => simp at hl
    | cons x s =>
      cases A2 with
      | nil => simp at hl2
      | cons x2 s2 =>
        obtain ⟨init, c, he, ht, hc, hmax⟩ := bubble_append_split key s x
        obtain ⟨init2, c2, he2, ht2, hc2, hmax2⟩ := bubble_append_split key s2 x2
        have hcc : c2 = c := by
          have h2in : c2 ∈ x :: s := hp.mem_iff.mpr hc2
          have h1in : c ∈ x2 :: s2 := hp.mem_iff.mp hc
          exact htie c2 h2in c hc (le_antisymm (hmax c2 h2in) (hmax2 c h1in))
        subst hcc
        have hp1 : (init ++ [c2]).Perm (x :: s) := by
          rw [← he]; exact bubble_perm _ s x
        have hp2 : (init2 ++ [c2]).Perm (x2 :: s2) := by
          rw [← he2]; exact bubble_perm _ s2 x2
        have hpi : init.Perm init2 :=
          (List.perm_append_right_iff [c2]).mp (hp1.trans (hp.trans hp2.symm))
        have hli : init.length = m + 1 := by
          have := hp1.length_eq
          simp only [List.length_append, List.length_cons, List.length_nil] at this hl
          omega
        rw [Function.iterate_succ_apply, Function.iterate_succ_apply]
        simp only [List.cons_append, bubblePass]
        rw [ht B, ht2 B]
        apply ih init init2 _ hli hpi
        intro a ha b hb
        exact htie a (hp1.mem_iff.mp (List.mem_append_left _ ha))
          b (hp1.mem_iff.mp (List.mem_append_left _ hb))

/-- Sorting `A`, appending `B` and sorting again gives what sorting `A ++ B` gives, for a
comparer that decides by the strict order of a key on the strings of `A ++ B`,
when equal keys occur in `A` only on equal strings. -/
theorem BubbleSort_append_of_key (key : CppString → Int) (u : CppString → CppString → Bool)
    (c : IStringComparer) (A B : List CppString) (hA : A ≠ [])
    (hagree : ∀ a ∈ A ++ B, ∀ b ∈ A ++ B, c.answer u a b = decide (key a < key b))
    (htie : ∀ a ∈ A, ∀ b ∈ A, key a = key b → a = b) :
    ∃ r1 r, Tester.BubbleSort u A c = some r1 ∧ Tester.BubbleSort u (r1 ++ B) c = some r ∧
      Tester.BubbleSort u (A ++ B) c = some r := by
  have hpos := List.length_pos.mpr hA
  have hr1 := iterate_bubblePass_perm (c.answer u) (A.length - 1) A
  have hperm : ((bubblePass (c.answer u))^[A.length - 1] A ++ B).Perm (A ++ B) :=
    hr1.append_right B
  have hne1 : (bubblePass (c.answer u))^[A.length - 1] A ++ B ≠ [] := by
    intro h
    have hlen := congrArg List.length h
    rw [List.length_append, hr1.length_eq, List.length_nil] at hlen
    omega
  have hne2 : A ++ B ≠ [] := by
    intro h
    exact hA (List.append_eq_nil.mp h).1
  refine ⟨_, _, BubbleSort_eq_iterate u c A hA, BubbleSort_eq_iterate u c _ hne1, ?_⟩
  rw [BubbleSort_eq_iterate u c _ hne2]
  congr 1
  rw [iterate_bubblePass_congr (g := fun a b => decide (key a < key b)) _ (A ++ B) hagree,
    iterate_bubblePass_congr (g := fun a b => decide (key a < key b)) _ _ (fun a ha b hb =>
      hagree a (hperm.mem_iff.mp ha) b (hperm.mem_iff.mp hb))]
  have hlen : ((bubblePass (c.answer u))^[A.length - 1] A ++ B).length - 1 =
      B.length + (A.length - 1) := by
    rw [List.length_append, hr1.length_eq]; omega
  have hlen2 : (A ++ B).length - 1 = B.length + (A.length - 1) := by
    rw [List.length_append]; omega
  rw [hlen, hlen2, Function.iterate_add_apply, Function.iterate_add_apply]
  have hAl : A.length = (A.length - 1) + 1 := by omega
  have hcore := iterate_bubblePass_append_perm key (A.length - 1) A _ B hAl hr1.symm htie
  rw [hcore]

/-- C21 (counterexample): with the last-letter comparer and `A = "xa", "ya"`, `B` empty,
`BubbleSort(A)` is `"ya", "xa"`, and sorting that list once more gives `"xa", "ya"`,
which is not `BubbleSort(A ++ B)`. -/
theorem Tester.BubbleSort_lastLetter_not_idempotent :
    Tester.BubbleSort (fun _ _ => false) [cpp "xa", cpp "ya"]
        (Tester.CreateComparer .LastLetterAscending) = some [cpp "ya", cpp "xa"] ∧
      Tester.BubbleSort (fun _ _ => false) ([cpp "ya", cpp "xa"] ++ [])
        (Tester.CreateComparer .LastLetterAscending) = some [cpp "xa", cpp "ya"] ∧
      Tester.BubbleSort (fun _ _ => false) ([cpp "xa", cpp "ya"] ++ [])
        (Tester.CreateComparer .LastLetterAscending) = some [cpp "ya", cpp "xa"] ∧
      Tester.BubbleSort (fun _ _ => false) ([cpp "ya", cpp "xa"] ++ [])
          (Tester.CreateComparer .LastLetterAscending) ≠
        Tester.BubbleSort (fun _ _ => false) ([cpp "xa", cpp "ya"] ++ [])
          (Tester.CreateComparer .LastLetterAscending) := by
  decide!

/-- C21 (amended): for every non-empty list `A`, every list `B` and each of the three
comparers, where for the last-letter comparer the strings of `A ++ B` are non-empty
and any two strings of `A` that end in the same character are equal,
`BubbleSort(BubbleSort(A) ++ B) = BubbleSort(A ++ B)`; and `BubbleSort` leaves `BubbleSort(A)` as
it is.  Nothing is asked of the last characters of the strings of `B`: they may
repeat each other and those of `A`. -/
theorem Tester.BubbleSort_append (unspecified : CppString → CppString → Bool)
    (A B : List CppString) (sortType : ESortType) (hA : A ≠ [])
    (hlast : sortType = .LastLetterAscending →
      (∀ s ∈ A ++ B, s ≠ []) ∧ ∀ a ∈ A, ∀ b ∈ A, a.getLast? = b.getLast? → a = b) :
    ∃ r1 r, Tester.BubbleSort unspecified A (Tester.CreateComparer sortType) = some r1 ∧
      Tester.BubbleSort unspecified (r1 ++ B) (Tester.CreateComparer sortType) = some r ∧
      Tester.BubbleSort unspecified (A ++ B) (Tester.CreateComparer sortType) = some r ∧
      Tester.BubbleSort unspecified r1 (Tester.CreateComparer sortType) = some r1 := by
  have key : ∀ B : List CppString,
      (sortType = .LastLetterAscending →
        (∀ s ∈ A ++ B, s ≠ []) ∧ ∀ a ∈ A, ∀ b ∈ A, a.getLast? = b.getLast? → a = b) →
      ∃ r1 r, Tester.BubbleSort unspecified A (Tester.CreateComparer sortType) = some r1 ∧
        Tester.BubbleSort unspecified (r1 ++ B) (Tester.CreateComparer sortType) = some r ∧
        Tester.BubbleSort unspecified (A ++ B) (Tester.CreateComparer sortType) = some r := by
    intro B hlast
    cases sortType with
    | AlphabeticalAscending =>
      exact BubbleSort_append_of_order
        (S := fun a b => AlphabeticalAscendingStringComparer.IsFirstAboveSecond a b = true)
        (g := AlphabeticalAscendingStringComparer.IsFirstAboveSecond) unspecified _ A B hA
        (fun a _ b _ => ascending_answer unspecified a b) (fun _ _ h => h)
        (fun a b h => ascending_total a b h) (fun a b c => ascending_trans a b c)
        (fun a _ b _ => ascending_antisymm a b)
    | AlphabeticalDescending =>
      exact BubbleSort_append_of_order (S := fun a b => b ≤ a)
        (g := fun a b => decide (b < a)) unspecified _ A B hA
        (fun a _ b _ => descending_answer unspecified a b)
        (fun a b h => le_of_lt (of_decide_eq_true h))
        (fun a b h => not_lt.mp (of_decide_eq_false h))
        (fun a b c hab hbc => le_trans hbc hab)
        (fun a _ b _ hab hba => le_antisymm hba hab)
    | LastLetterAscending =>
      obtain ⟨hne, hinj⟩ := hlast rfl
      exact BubbleSort_append_of_key lastKey unspecified _ A B hA
        (fun a ha b hb => lastLetter_answer unspecified a b (hne a ha) (hne b hb))
        (fun a ha b hb hab =>
          hinj a ha b hb (lastKey_eq_imp (hne a (List.mem_append_left _ ha))
            (hne b (List.mem_append_left _ hb)) hab))
  obtain ⟨r1, r, h1, h2, h3⟩ := key B hlast
  obtain ⟨r1', r', h1', h2', h3'⟩ := key [] (by
    intro hs
    obtain ⟨hne, hinj⟩ := hlast hs
    refine ⟨fun s hs => hne s ?_, hinj⟩
    simp at hs; exact List.mem_append_left _ hs)
  rw [h1] at h1'
  cases h1'
  simp only [List.append_nil] at h2' h3'
  rw [h1] at h3'
  cases h3'
  exact ⟨r1, r, h1, h2, h3, h2'⟩

theorem Tester.BubbleSort_append_witness :
    ([cpp "xb", cpp "ya"] : List CppString) ≠ [] ∧
      (∀ s ∈ [cpp "xb", cpp "ya"] ++ [cpp "za", cpp "c", cpp "wa"], s ≠ []) ∧
      (∀ a ∈ [cpp "xb", cpp "ya"], ∀ b ∈ [cpp "xb", cpp "ya"],
        a.getLast? = b.getLast? → a = b) ∧
      ∃ r1 r, Tester.BubbleSort (fun _ _ => false) [cpp "xb", cpp "ya"]
          (Tester.CreateComparer .LastLetterAscending) = some r1 ∧
        Tester.BubbleSort (fun _ _ => false) (r1 ++ [cpp "za", cpp "c", cpp "wa"])
          (Tester.CreateComparer .LastLetterAscending) = some r ∧
        Tester.BubbleSort (fun _ _ => false)
          ([cpp "xb", cpp "ya"] ++ [cpp "za", cpp "c", cpp "wa"])
          (Tester.CreateComparer .LastLetterAscending) = some r ∧
        Tester.BubbleSort (fun _ _ => false) r1
          (Tester.CreateComparer .LastLetterAscending) = some r1 :=
  ⟨by decide, by decide, by decide,
    Tester.BubbleSort_append _ [cpp "xb", cpp "ya"] [cpp "za", cpp "c", cpp "wa"]
      .LastLetterAscending (by decide) (fun _ => ⟨by decide, by decide⟩)⟩
